import Mathlib

set_option maxRecDepth 8000

/-!
Verification development for the gifenc core (color quantization, palette
application, GIF container assembly).

JavaScript numbers on the paths modelled here are either integers (modelled
as `ℕ`/`ℤ`) or exact binary fractions produced by small divisions and
averages.  They are modelled by `JSNum`, an explicit fraction of integers
with a positive denominator, whose arithmetic is exact (every number actually
produced on these paths is exactly representable in an IEEE double, and the
operations used — `+`, `-`, `*`, small divisions — are exact on them, so the
fraction semantics and the double semantics agree).  `JSNum.toRat` sends a
fraction to the rational it denotes, and the comparison operators are proved
to agree with the rational ones.  `Math.sqrt`, irrational in general, is
threaded through `quantize` as an explicit function parameter `msqrt`; every
concrete evaluation below only applies it to `1` or not at all, where the
IEEE function agrees with any function sending `1` to `1`.
-/

namespace Gifenc

/-- An exact JS number: a fraction of integers with positive denominator. -/
structure JSNum where
  num : ℤ
  den : ℤ
  dpos : 0 < den

instance (n : ℕ) : OfNat JSNum n := ⟨⟨(n : ℕ), 1, one_pos⟩⟩
instance : NatCast JSNum := ⟨fun n => ⟨(n : ℕ), 1, one_pos⟩⟩
instance : IntCast JSNum := ⟨fun n => ⟨n, 1, one_pos⟩⟩
instance : Add JSNum :=
  ⟨fun x y => ⟨x.num * y.den + y.num * x.den, x.den * y.den, mul_pos x.dpos y.dpos⟩⟩
instance : Sub JSNum :=
  ⟨fun x y => ⟨x.num * y.den - y.num * x.den, x.den * y.den, mul_pos x.dpos y.dpos⟩⟩
instance : Mul JSNum :=
  ⟨fun x y => ⟨x.num * y.num, x.den * y.den, mul_pos x.dpos y.dpos⟩⟩

/-- Division; division by zero yields 0 (it never occurs on the modelled
paths: every divisor there is a positive count or sum of counts). -/
instance : Div JSNum :=
  ⟨fun x y =>
    if h : 0 < y.num then ⟨x.num * y.den, x.den * y.num, mul_pos x.dpos h⟩
    else if h2 : y.num < 0 then
      ⟨-(x.num * y.den), x.den * (-y.num), mul_pos x.dpos (by omega)⟩
    else ⟨0, 1, one_pos⟩⟩

instance : LE JSNum := ⟨fun x y => x.num * y.den ≤ y.num * x.den⟩
instance : LT JSNum := ⟨fun x y => x.num * y.den < y.num * x.den⟩
instance : ∀ x y : JSNum, Decidable (x ≤ y) := fun x y =>
  inferInstanceAs (Decidable (x.num * y.den ≤ y.num * x.den))
instance : ∀ x y : JSNum, Decidable (x < y) := fun x y =>
  inferInstanceAs (Decidable (x.num * y.den < y.num * x.den))

/-- The rational a `JSNum` denotes. -/
def JSNum.toRat (x : JSNum) : ℚ := (x.num : ℚ) / (x.den : ℚ)

/-- `Math.round`: round half toward positive infinity, as JS does
(`⌊q + 1/2⌋` on the denoted rational). -/
def JSNum.round (x : JSNum) : ℤ := (2 * x.num + x.den).fdiv (2 * x.den)

/-- `Math.floor` on the denoted rational. -/
def JSNum.floorInt (x : JSNum) : ℤ := x.num.fdiv x.den

/-- The literal `1e100` that seeds the minimum searches. -/
def jsBig : JSNum := ⟨10 ^ 100, 1, one_pos⟩

/-- The literal `0.022` of the `useSqrt` heuristic. -/
def js0022 : JSNum := ⟨22, 1000, by norm_num⟩

/-- `sqr` from palettize.ts / pnnquant2.ts. -/
def sqr (x : JSNum) : JSNum := x * x

/-- `clamp` from pnnquant2.ts. -/
def clamp (value min max : ℤ) : ℤ :=
  if value < min then min else if value > max then max else value

/-- Modelled from the spec: src/rgb-packing.ts is absent from the sources;
§3 of the spec gives `rgb565`: `((r & 0xF8) << 8) | ((g & 0xFC) << 3) | (b >> 3)`. -/
def rgb888_to_rgb565 (r g b : ℕ) : ℕ :=
  ((r &&& 0xF8) <<< 8) ||| ((g &&& 0xFC) <<< 3) ||| (b >>> 3)

/-- Modelled from the spec: `rgb444`: `((r & 0xF0) << 4) | (g & 0xF0) | (b >> 4)`. -/
def rgb888_to_rgb444 (r g b : ℕ) : ℕ :=
  ((r &&& 0xF0) <<< 4) ||| (g &&& 0xF0) ||| (b >>> 4)

/-- Modelled from the spec: `rgba4444` is "like rgb444 with alpha nibble in
the high position — 16 bits". -/
def rgba8888_to_rgba4444 (r g b a : ℕ) : ℕ :=
  ((a &&& 0xF0) <<< 8) ||| ((r &&& 0xF0) <<< 4) ||| (g &&& 0xF0) ||| (b >>> 4)

/-- `new Uint32Array(rgba.buffer)`: group bytes into little-endian 32-bit words
(typed arrays use the little-endian layout the library relies on: `color & 0xff`
is the r byte).  The constructor's multiple-of-4 requirement is checked by the
callers below. -/
def bytesToU32 : List ℕ → List ℕ
  | b0 :: b1 :: b2 :: b3 :: rest =>
      (b0 % 256 + 256 * (b1 % 256) + 65536 * (b2 % 256) + 16777216 * (b3 % 256)) ::
        bytesToU32 rest
  | _ => []

/-- Little-endian bytes of a list of 32-bit words (the caller-visible content
of the byte buffer a `Uint32Array` view aliases). -/
def u32ToBytes : List ℕ → List ℕ
  | [] => []
  | w :: rest => w % 256 :: w / 256 % 256 :: w / 65536 % 256 :: w / 16777216 % 256 ::
      u32ToBytes rest

/-- `color & 0xff` — the r byte of a little-endian RGBA word. -/
def chanR (color : ℕ) : ℕ := color % 256
/-- `(color >> 8) & 0xff` — the g byte. -/
def chanG (color : ℕ) : ℕ := color / 256 % 256
/-- `(color >> 16) & 0xff` — the b byte. -/
def chanB (color : ℕ) : ℕ := color / 65536 % 256
/-- `(color >> 24) & 0xff` — the a byte. -/
def chanA (color : ℕ) : ℕ := color / 16777216 % 256

/-- Loop body of `nearestColorIndexRGB` (palettize.ts): the running position
`i`, best index `k` and best distance `mindist` are threaded explicitly; the
three `continue` guards of the source appear as the staged `if`s. -/
def nciRGBGo (r g b : JSNum) : List (List ℤ) → ℕ → ℕ → JSNum → ℕ
  | [], _, k, _ => k
  | px2 :: rest, i, k, mindist =>
      let r2 : JSNum := (px2.getD 0 0 : ℤ)
      let curdist := sqr (r2 - r)
      if curdist > mindist then nciRGBGo r g b rest (i + 1) k mindist
      else
        let g2 : JSNum := (px2.getD 1 0 : ℤ)
        let curdist := curdist + sqr (g2 - g)
        if curdist > mindist then nciRGBGo r g b rest (i + 1) k mindist
        else
          let b2 : JSNum := (px2.getD 2 0 : ℤ)
          let curdist := curdist + sqr (b2 - b)
          if curdist > mindist then nciRGBGo r g b rest (i + 1) k mindist
          else nciRGBGo r g b rest (i + 1) i curdist

/-- `nearestColorIndexRGB(r, g, b, palette)` from palettize.ts. -/
def nearestColorIndexRGB (r g b : ℕ) (palette : List (List ℤ)) : ℕ :=
  nciRGBGo (r : ℕ) (g : ℕ) (b : ℕ) palette 0 0 jsBig

/-- Loop body of `nearestColorIndexRGBA` (palettize.ts); the alpha term is
accumulated first, then r, g, b, each with its early `continue`. -/
def nciRGBAGo (r g b a : JSNum) : List (List ℤ) → ℕ → ℕ → JSNum → ℕ
  | [], _, k, _ => k
  | px2 :: rest, i, k, mindist =>
      let a2 : JSNum := (px2.getD 3 0 : ℤ)
      let curdist := sqr (a2 - a)
      if curdist > mindist then nciRGBAGo r g b a rest (i + 1) k mindist
      else
        let r2 : JSNum := (px2.getD 0 0 : ℤ)
        let curdist := curdist + sqr (r2 - r)
        if curdist > mindist then nciRGBAGo r g b a rest (i + 1) k mindist
        else
          let g2 : JSNum := (px2.getD 1 0 : ℤ)
          let curdist := curdist + sqr (g2 - g)
          if curdist > mindist then nciRGBAGo r g b a rest (i + 1) k mindist
          else
            let b2 : JSNum := (px2.getD 2 0 : ℤ)
            let curdist := curdist + sqr (b2 - b)
            if curdist > mindist then nciRGBAGo r g b a rest (i + 1) k mindist
            else nciRGBAGo r g b a rest (i + 1) i curdist

/-- `nearestColorIndexRGBA(r, g, b, a, palette)` from palettize.ts. -/
def nearestColorIndexRGBA (r g b a : ℕ) (palette : List (List ℤ)) : ℕ :=
  nciRGBAGo (r : ℕ) (g : ℕ) (b : ℕ) (a : ℕ) palette 0 0 jsBig

/-- The `hasAlpha` pixel loop of `applyPalette` (palettize.ts lines 68-83).
State: the `cache` array (association list keyed by the packed rgba4444 key),
the output `index` bytes, and the pixels of the `data` view threaded through so
that any store into the caller's buffer would be visible; each iteration hands
its (unmodified) word to the accumulator `dataAcc` (reversed at the end). -/
def apGoRGBA (palette : List (List ℤ)) :
    List ℕ → List (ℕ × ℕ) → List ℕ → List ℕ → List (List ℤ) →
      List ℕ × List ℕ × List (List ℤ)
  | [], _cache, outAcc, dataAcc, pal => (outAcc.reverse, dataAcc.reverse, pal)
  | color :: rest, cache, outAcc, dataAcc, pal =>
      let a := chanA color
      let b := chanB color
      let g := chanG color
      let r := chanR color
      let key := rgba8888_to_rgba4444 r g b a
      match cache.lookup key with
      | some idx => apGoRGBA palette rest cache (idx % 256 :: outAcc) (color :: dataAcc) pal
      | none =>
          let idx := nearestColorIndexRGBA r g b a pal
          apGoRGBA palette rest ((key, idx) :: cache) (idx % 256 :: outAcc)
            (color :: dataAcc) pal

/-- The non-alpha pixel loop of `applyPalette` (palettize.ts lines 84-100).
Note the source selects the key function with `hasAlpha ? rgb888_to_rgb444 :
rgb888_to_rgb565` *inside* the branch where `hasAlpha` is false, so the rgb565
key function is used for both rgb565 and rgb444 formats. -/
def apGoRGB (palette : List (List ℤ)) (hasAlpha : Bool) :
    List ℕ → List (ℕ × ℕ) → List ℕ → List ℕ → List (List ℤ) →
      List ℕ × List ℕ × List (List ℤ)
  | [], _cache, outAcc, dataAcc, pal => (outAcc.reverse, dataAcc.reverse, pal)
  | color :: rest, cache, outAcc, dataAcc, pal =>
      let rgb888_to_key := if hasAlpha then rgb888_to_rgb444 else rgb888_to_rgb565
      let b := chanB color
      let g := chanG color
      let r := chanR color
      let key := rgb888_to_key r g b
      match cache.lookup key with
      | some idx => apGoRGB palette hasAlpha rest cache (idx % 256 :: outAcc)
          (color :: dataAcc) pal
      | none =>
          let idx := nearestColorIndexRGB r g b pal
          apGoRGB palette hasAlpha rest ((key, idx) :: cache) (idx % 256 :: outAcc)
            (color :: dataAcc) pal

/-- `applyPalette(rgba, palette, format)` with the caller-visible final state of
the `rgba` buffer and the palette returned alongside the result.  The two
`Uint8Array` type guards of the source cannot fail for a typed byte-array input;
the palette-size guard and the `Uint32Array` view construction (which throws a
`RangeError` when the byte length is not a multiple of 4) are modelled. -/
def applyPaletteT (rgba : List ℕ) (palette : List (List ℤ)) (format : String) :
    Except String (List ℕ) × List ℕ × List (List ℤ) :=
  if palette.length > 256 then
    (.error "applyPalette() only works with 256 colors or less", rgba, palette)
  else if rgba.length % 4 ≠ 0 then
    (.error "RangeError: byte length of Uint32Array should be a multiple of 4",
      rgba, palette)
  else
    let data := bytesToU32 rgba
    let hasAlpha := format = "rgba4444"
    let out :=
      if hasAlpha then apGoRGBA palette data [] [] [] palette
      else apGoRGB palette hasAlpha data [] [] [] palette
    (.ok out.1, u32ToBytes out.2.1, out.2.2)

/-- `applyPalette(rgba, palette, format)` (palettize.ts): the returned index
bytes. -/
def applyPalette (rgba : List ℕ) (palette : List (List ℤ)) (format : String) :
    Except String (List ℕ) :=
  (applyPaletteT rgba palette format).1

/-- The `Bin` record of pnnquant2.ts, fields in source order. -/
structure Bin where
  ac : JSNum
  rc : JSNum
  gc : JSNum
  bc : JSNum
  cnt : JSNum
  nn : ℕ
  fw : ℕ
  bk : ℕ
  tm : ℕ
  mtm : ℕ
  err : JSNum

/-- `create_bin()` from pnnquant2.ts. -/
def create_bin : Bin := ⟨0, 0, 0, 0, 0, 0, 0, 0, 0, 0, 0⟩

/-- One histogram update: accumulate a pixel's channels into the bin for `key`
(creating the bin on first sight).  The sparse JS array indexed by packed key
is modelled as an association list kept sorted by key, which reproduces the
ascending-index iteration order of the later compaction loop.  `a` is `none`
in the formats whose loop never touches `bin.ac`. -/
def histAdd (key r g b : ℕ) (a : Option ℕ) : List (ℕ × Bin) → List (ℕ × Bin)
  | [] => [(key, { create_bin with
      rc := (r : ℕ)
      gc := (g : ℕ)
      bc := (b : ℕ)
      ac := (a.getD 0 : ℕ)
      cnt := 1 })]
  | (k, bin) :: rest =>
      if key = k then
        (k, { bin with
          rc := bin.rc + (r : ℕ)
          gc := bin.gc + (g : ℕ)
          bc := bin.bc + (b : ℕ)
          ac := bin.ac + (a.getD 0 : ℕ)
          cnt := bin.cnt + 1 }) :: rest
      else if key < k then
        (key, { create_bin with
          rc := (r : ℕ)
          gc := (g : ℕ)
          bc := (b : ℕ)
          ac := (a.getD 0 : ℕ)
          cnt := 1 }) :: (k, bin) :: rest
      else (k, bin) :: histAdd key r g b a rest

/-- rgba4444 branch of the `create_bin_list` histogram loop, threading the
`data` words through (each iteration hands its unmodified word on). -/
def cblGoRGBA : List ℕ → List (ℕ × Bin) → List ℕ → List (ℕ × Bin) × List ℕ
  | [], bins, dataAcc => (bins, dataAcc.reverse)
  | color :: rest, bins, dataAcc =>
      let a := chanA color
      let b := chanB color
      let g := chanG color
      let r := chanR color
      cblGoRGBA rest (histAdd (rgba8888_to_rgba4444 r g b a) r g b (some a) bins)
        (color :: dataAcc)

/-- rgb444 branch of the `create_bin_list` histogram loop. -/
def cblGoRGB444 : List ℕ → List (ℕ × Bin) → List ℕ → List (ℕ × Bin) × List ℕ
  | [], bins, dataAcc => (bins, dataAcc.reverse)
  | color :: rest, bins, dataAcc =>
      let b := chanB color
      let g := chanG color
      let r := chanR color
      cblGoRGB444 rest (histAdd (rgb888_to_rgb444 r g b) r g b none bins)
        (color :: dataAcc)

/-- rgb565 (default) branch of the `create_bin_list` histogram loop. -/
def cblGoRGB565 : List ℕ → List (ℕ × Bin) → List ℕ → List (ℕ × Bin) × List ℕ
  | [], bins, dataAcc => (bins, dataAcc.reverse)
  | color :: rest, bins, dataAcc =>
      let b := chanB color
      let g := chanG color
      let r := chanR color
      cblGoRGB565 rest (histAdd (rgb888_to_rgb565 r g b) r g b none bins)
        (color :: dataAcc)

/-- `create_bin_list(data, format)` from pnnquant2.ts, also returning the final
state of the `data` words it read. -/
def create_bin_listT (data : List ℕ) (format : String) :
    List (ℕ × Bin) × List ℕ :=
  if format = "rgba4444" then cblGoRGBA data [] []
  else if format = "rgb444" then cblGoRGB444 data [] []
  else cblGoRGB565 data [] []

/-- `create_bin_list(data, format)`: the nonempty bins in ascending key order,
exactly the compacted prefix the quantizer's "cluster nonempty bins" loop
produces. -/
def create_bin_list (data : List ℕ) (format : String) : List (ℕ × Bin) :=
  (create_bin_listT data format).1

/-- The normalization step of `quantize`: replace channel sums by means
(`d = 1.0 / bin.cnt`; alpha only when `hasAlpha`). -/
def normalizeBin (hasAlpha : Bool) (bin : Bin) : Bin :=
  let d : JSNum := 1 / bin.cnt
  let bin := if hasAlpha then { bin with ac := bin.ac * d } else bin
  { bin with rc := bin.rc * d, gc := bin.gc * d, bc := bin.bc * d }

/-- Index-aware map over the bin list (helper for the linking loop). -/
def mapIdxBGo (f : ℕ → Bin → Bin) : ℕ → List Bin → List Bin
  | _, [] => []
  | i, b :: rest => f i b :: mapIdxBGo f (i + 1) rest

/-- The linking loop of `quantize`: `bins[i].fw = i+1`, `bins[i+1].bk = i` for
`i < maxbins-1` (so the last bin keeps `fw = 0` and bin 0 keeps `bk = 0`), and
`cnt = Math.sqrt(cnt)` for every live bin when `useSqrt`. -/
def linkBins (useSqrt : Bool) (msqrt : JSNum → JSNum) (maxbins : ℕ)
    (bins : List Bin) : List Bin :=
  mapIdxBGo (fun i b =>
    { b with
      fw := if i + 1 = maxbins then 0 else i + 1
      bk := i - 1
      cnt := if useSqrt then msqrt b.cnt else b.cnt }) 0 bins

/-- Scan loop of `find_nn` (pnnquant2.ts): walk the forward list from
`bin1.fw`, keeping the best `(nn, err)`.  The staged `continue`s of the source
appear as the nested `if`s; `fuel` bounds the walk (the forward list of a
well-formed state is acyclic and shorter than the fuel the callers pass). -/
def find_nnGo (bins : List Bin) (hasAlpha : Bool) (n1 wa wr wg wb : JSNum) :
    ℕ → ℕ → ℕ → JSNum → ℕ × JSNum
  | 0, _, nn, err => (nn, err)
  | _ + 1, 0, nn, err => (nn, err)
  | fuel + 1, i, nn, err =>
      let bin := bins.getD i create_bin
      let n2 := bin.cnt
      let nerr2 := n1 * n2 / (n1 + n2)
      if nerr2 ≥ err then find_nnGo bins hasAlpha n1 wa wr wg wb fuel bin.fw nn err
      else
        let stageA : Option JSNum :=
          if hasAlpha then
            let x := nerr2 * sqr (bin.ac - wa)
            if x ≥ err then none else some x
          else some 0
        match stageA with
        | none => find_nnGo bins hasAlpha n1 wa wr wg wb fuel bin.fw nn err
        | some nerr =>
            let nerr := nerr + nerr2 * sqr (bin.rc - wr)
            if nerr ≥ err then find_nnGo bins hasAlpha n1 wa wr wg wb fuel bin.fw nn err
            else
              let nerr := nerr + nerr2 * sqr (bin.gc - wg)
              if nerr ≥ err then find_nnGo bins hasAlpha n1 wa wr wg wb fuel bin.fw nn err
              else
                let nerr := nerr + nerr2 * sqr (bin.bc - wb)
                if nerr ≥ err then
                  find_nnGo bins hasAlpha n1 wa wr wg wb fuel bin.fw nn err
                else find_nnGo bins hasAlpha n1 wa wr wg wb fuel bin.fw i nerr

/-- `find_nn(bins, idx, hasAlpha)` from pnnquant2.ts: stores the best
neighbor and error into `bins[idx]`. -/
def find_nn (fuel : ℕ) (bins : List Bin) (idx : ℕ) (hasAlpha : Bool) : List Bin :=
  let bin1 := bins.getD idx create_bin
  let res := find_nnGo bins hasAlpha bin1.cnt bin1.ac bin1.rc bin1.gc bin1.bc
    fuel bin1.fw 0 jsBig
  bins.set idx { bin1 with err := res.2, nn := res.1 }

/-- Alpha-free variant of the `find_nn` scan: the error sums the r, g, b terms
only.  Used to state that `quantize` never lets alpha into the merge error. -/
def find_nnGoRgb (bins : List Bin) (n1 wr wg wb : JSNum) :
    ℕ → ℕ → ℕ → JSNum → ℕ × JSNum
  | 0, _, nn, err => (nn, err)
  | _ + 1, 0, nn, err => (nn, err)
  | fuel + 1, i, nn, err =>
      let bin := bins.getD i create_bin
      let n2 := bin.cnt
      let nerr2 := n1 * n2 / (n1 + n2)
      if nerr2 ≥ err then find_nnGoRgb bins n1 wr wg wb fuel bin.fw nn err
      else
        let nerr := (0 : JSNum) + nerr2 * sqr (bin.rc - wr)
        if nerr ≥ err then find_nnGoRgb bins n1 wr wg wb fuel bin.fw nn err
        else
          let nerr := nerr + nerr2 * sqr (bin.gc - wg)
          if nerr ≥ err then find_nnGoRgb bins n1 wr wg wb fuel bin.fw nn err
          else
            let nerr := nerr + nerr2 * sqr (bin.bc - wb)
            if nerr ≥ err then find_nnGoRgb bins n1 wr wg wb fuel bin.fw nn err
            else find_nnGoRgb bins n1 wr wg wb fuel bin.fw i nerr

/-- Alpha-free `find_nn`. -/
def find_nn_rgb (fuel : ℕ) (bins : List Bin) (idx : ℕ) : List Bin :=
  let bin1 := bins.getD idx create_bin
  let res := find_nnGoRgb bins bin1.cnt bin1.rc bin1.gc bin1.bc
    fuel bin1.fw 0 jsBig
  bins.set idx { bin1 with err := res.2, nn := res.1 }

/-- The sift-up of the initial heap build: `for (l = ++heap[0]; l > 1; l = l2)`
with `l2 = l >> 1`, stopping when the parent's error is already ≤ `err`. -/
def heapPushGo (bins : List Bin) (err : JSNum) : ℕ → List ℕ → ℕ → List ℕ × ℕ
  | 0, heap, l => (heap, l)
  | fuel + 1, heap, l =>
      if l ≤ 1 then (heap, l)
      else
        let l2 := l / 2
        let h := heap.getD l2 0
        if (bins.getD h create_bin).err ≤ err then (heap, l)
        else heapPushGo bins err fuel (heap.set l h) l2

/-- Push slot `i` on the heap (pnnquant2.ts lines 799-807). -/
def heapPush (bins : List Bin) (heap : List ℕ) (i : ℕ) : List ℕ :=
  let err := (bins.getD i create_bin).err
  let sz := heap.getD 0 0 + 1
  let heap := heap.set 0 sz
  let (heap, l) := heapPushGo bins err (sz + 1) heap sz
  heap.set l i

/-- The initial nearest-neighbor pass: for each bin index, run the neighbor
search (`nnf`, which `quantize` instantiates with `find_nn(bins, i, false)`)
and push the slot onto the heap. -/
def nnPhase (nnf : List Bin → ℕ → List Bin) :
    List ℕ → List Bin → List ℕ → List Bin × List ℕ
  | [], bins, heap => (bins, heap)
  | i :: rest, bins, heap =>
      let bins := nnf bins i
      let heap := heapPush bins heap i
      nnPhase nnf rest bins heap

/-- Sift-down used in the merge loop: `for (l = 1; (l2 = l + l) <= heap[0];
l = l2)`, preferring the smaller child, stopping when `err` fits. -/
def siftDownGo (bins : List Bin) (err : JSNum) : ℕ → List ℕ → ℕ → List ℕ × ℕ
  | 0, heap, l => (heap, l)
  | fuel + 1, heap, l =>
      let l2 := l + l
      if l2 > heap.getD 0 0 then (heap, l)
      else
        let l2 := if l2 < heap.getD 0 0 ∧
            (bins.getD (heap.getD l2 0) create_bin).err >
              (bins.getD (heap.getD (l2 + 1) 0) create_bin).err
          then l2 + 1 else l2
        let h := heap.getD l2 0
        if err ≤ (bins.getD h create_bin).err then (heap, l)
        else siftDownGo bins err fuel (heap.set l h) l2

/-- The `for (;;)` candidate-validation loop of the merge phase: accept the
root if its stored error is current, drop it if it is a tombstone
(`mtm == bincount - 1`), otherwise recompute its neighbor (`nnf`, which
`quantize` instantiates with `find_nn(bins, b1, false)`) and stamp `tm = i`;
in the two non-accepting cases sift the slot down and retry. -/
def stabilizeGo (nnf : List Bin → ℕ → List Bin) (bincountMinusOne iCur : ℕ) :
    ℕ → List Bin → List ℕ → ℕ × List Bin × List ℕ
  | 0, bins, heap => (heap.getD 1 0, bins, heap)
  | fuel + 1, bins, heap =>
      let b1 := heap.getD 1 0
      let tb := bins.getD b1 create_bin
      if tb.tm ≥ tb.mtm ∧ (bins.getD tb.nn create_bin).mtm ≤ tb.tm then
        (b1, bins, heap)
      else
        let (b1, bins, heap) :=
          if tb.mtm = bincountMinusOne then
            let sz := heap.getD 0 0
            let v := heap.getD sz 0
            (v, bins, (heap.set 1 v).set 0 (sz - 1))
          else
            let bins := nnf bins b1
            let bins := bins.set b1 { bins.getD b1 create_bin with tm := iCur }
            (b1, bins, heap)
        let err := (bins.getD b1 create_bin).err
        let (heap, l) := siftDownGo bins err (heap.length + 2) heap 1
        let heap := heap.set l b1
        stabilizeGo nnf bincountMinusOne iCur fuel bins heap

/-- One merge (pnnquant2.ts lines 838-853), as the source's sequence of field
assignments: each assignment reads the current state, so the aliasing cases
(`tb.nn` pointing at `b1` itself, or self-linked `bk`/`fw`) behave exactly as
the mutable objects do. -/
def mergeStep (hasAlpha : Bool) (bincountMinusOne iCur b1 : ℕ) (bins : List Bin) :
    List Bin :=
  let tb := bins.getD b1 create_bin
  let nbIdx := tb.nn
  let n1 := tb.cnt
  let n2 := (bins.getD nbIdx create_bin).cnt
  let d : JSNum := 1 / (n1 + n2)
  let bins := if hasAlpha then
      let t := bins.getD b1 create_bin
      let n := bins.getD nbIdx create_bin
      bins.set b1 { t with ac := d * (n1 * t.ac + n2 * n.ac) }
    else bins
  let bins :=
    let t := bins.getD b1 create_bin
    let n := bins.getD nbIdx create_bin
    bins.set b1 { t with rc := d * (n1 * t.rc + n2 * n.rc) }
  let bins :=
    let t := bins.getD b1 create_bin
    let n := bins.getD nbIdx create_bin
    bins.set b1 { t with gc := d * (n1 * t.gc + n2 * n.gc) }
  let bins :=
    let t := bins.getD b1 create_bin
    let n := bins.getD nbIdx create_bin
    bins.set b1 { t with bc := d * (n1 * t.bc + n2 * n.bc) }
  let bins :=
    let t := bins.getD b1 create_bin
    let n := bins.getD nbIdx create_bin
    bins.set b1 { t with cnt := t.cnt + n.cnt }
  let bins := bins.set b1 { bins.getD b1 create_bin with mtm := iCur + 1 }
  let u := bins.getD nbIdx create_bin
  let bins := bins.set u.bk { bins.getD u.bk create_bin with fw := u.fw }
  let u2 := bins.getD nbIdx create_bin
  let bins := bins.set u2.fw { bins.getD u2.fw create_bin with bk := u2.bk }
  bins.set nbIdx { bins.getD nbIdx create_bin with mtm := bincountMinusOne }

/-- The merge loop: `extbins` iterations, each stabilizing the heap root and
merging it with its recorded neighbor; `iCur` is the source's `i`, incremented
once per merge. -/
def mergePhase (nnf : List Bin → ℕ → List Bin) (hasAlpha : Bool)
    (bincountMinusOne : ℕ) : ℕ → ℕ → List Bin → List ℕ → List Bin
  | 0, _, bins, _ => bins
  | count + 1, iCur, bins, heap =>
      let (b1, bins, heap) :=
        stabilizeGo nnf bincountMinusOne iCur (2 * bins.length + 4) bins heap
      let bins := mergeStep hasAlpha bincountMinusOne iCur b1 bins
      mergePhase nnf hasAlpha bincountMinusOne count (iCur + 1) bins heap

/-- `existsInPalette(palette, color)` from pnnquant2.ts. -/
def existsInPalette (palette : List (List ℤ)) (color : List ℤ) : Bool :=
  palette.any fun p =>
    (p.getD 0 0 == color.getD 0 0 && p.getD 1 0 == color.getD 1 0 &&
      p.getD 2 0 == color.getD 2 0) &&
    (if 4 ≤ p.length ∧ 4 ≤ color.length then p.getD 3 0 == color.getD 3 0 else true)

/-- `true`/`false`/number option values (`oneBitAlpha` may be a boolean or a
numeric threshold). -/
inductive JSVal where
  | bool (b : Bool)
  | num (q : JSNum)

/-- JS truthiness for `JSVal` (a number is truthy iff nonzero). -/
def jsTruthy : JSVal → Bool
  | .bool b => b
  | .num q => decide (q.num ≠ 0)

/-- Options of `quantize` with the source's defaults. -/
structure QuantizeOptions where
  format : String := "rgb565"
  useSqrt : Option Bool := none
  oneBitAlpha : JSVal := .bool false
  clearAlpha : Bool := true
  clearAlphaThreshold : JSNum := 0
  clearAlphaColor : ℤ := 0

/-- The palette-fill walk (pnnquant2.ts lines 859-884): emit the rounded,
clamped bin means starting at bin 0, following `fw` until it is 0,
de-duplicating with `existsInPalette`.  `fuel` bounds the walk. -/
def fillGo (hasAlpha : Bool) (opts : QuantizeOptions) (bins : List Bin) :
    ℕ → ℕ → List (List ℤ) → List (List ℤ)
  | 0, _, palette => palette
  | fuel + 1, i, palette =>
      let bin := bins.getD i create_bin
      let r := clamp bin.rc.round 0 255
      let g := clamp bin.gc.round 0 255
      let b := clamp bin.bc.round 0 255
      let rgba :=
        if hasAlpha then
          let a := clamp bin.ac.round 0 255
          let a := if jsTruthy opts.oneBitAlpha then
              let threshold : JSNum :=
                match opts.oneBitAlpha with
                | .num t => t
                | .bool _ => 127
              if (a : ℤ) ≤ threshold then 0 else 255
            else a
          if opts.clearAlpha ∧ (a : ℤ) ≤ opts.clearAlphaThreshold then
            (opts.clearAlphaColor, opts.clearAlphaColor, opts.clearAlphaColor, (0 : ℤ))
          else (r, g, b, a)
        else (r, g, b, (255 : ℤ))
      let color := if hasAlpha then [rgba.1, rgba.2.1, rgba.2.2.1, rgba.2.2.2]
        else [rgba.1, rgba.2.1, rgba.2.2.1]
      let palette := if existsInPalette palette color then palette
        else palette ++ [color]
      let i' := bin.fw
      if i' = 0 then palette else fillGo hasAlpha opts bins fuel i' palette

/-- `quantize(rgba, maxColors, opts)` (pnnquant2.ts), parameterized by the
neighbor search `nnf` used at its two `find_nn` call sites, and returning the
final caller-visible bytes of `rgba` alongside the palette.  The `Uint8Array`
type guards cannot fail for a typed byte-array input; the `Uint32Array` view
construction fails for byte lengths not divisible by 4, and an empty histogram
(`maxbins = 0`, i.e. empty input) makes the source dereference the undefined
`bins[0]` — a `TypeError`.  The heap (`new Uint32Array(bincount + 1)` in the
source) only ever touches slots `0..maxbins` (its size, in slot 0, never
exceeds `maxbins`), so the model allocates exactly that prefix. -/
def quantizeCore (nnf : List Bin → ℕ → List Bin) (msqrt : JSNum → JSNum)
    (rgba : List ℕ) (maxColors : ℕ) (opts : QuantizeOptions) :
    Except String (List (List ℤ)) × List ℕ :=
  if rgba.length % 4 ≠ 0 then
    (.error "RangeError: byte length of Uint32Array should be a multiple of 4", rgba)
  else
    let cbl := create_bin_listT (bytesToU32 rgba) opts.format
    let binsAssoc := cbl.1
    let data' := cbl.2
    let hasAlpha := opts.format = "rgba4444"
    let maxbins := binsAssoc.length
    if maxbins = 0 then
      (.error "TypeError: cannot read properties of undefined", u32ToBytes data')
    else
      let bins := binsAssoc.map (fun kb => normalizeBin hasAlpha kb.2)
      let useSqrt := if sqr (maxColors : ℕ) / (maxbins : ℕ) < js0022 then false
        else opts.useSqrt ≠ some false
      let bins := linkBins useSqrt msqrt maxbins bins
      let bincount := if opts.format = "rgb444" then 4096 else 65536
      let heap0 : List ℕ := List.replicate (maxbins + 1) 0
      let nph := nnPhase nnf (List.range maxbins) bins heap0
      let extbins : ℤ := (maxbins : ℤ) - (maxColors : ℤ)
      let bins2 := mergePhase nnf hasAlpha (bincount - 1) extbins.toNat 0 nph.1 nph.2
      (.ok (fillGo hasAlpha opts bins2 maxbins 0 []), u32ToBytes data')

/-- `quantize` with the caller-visible final `rgba` bytes: both `find_nn` call
sites pass `false` for `hasAlpha`, exactly as the source does. -/
def quantizeT (msqrt : JSNum → JSNum) (rgba : List ℕ) (maxColors : ℕ)
    (opts : QuantizeOptions) : Except String (List (List ℤ)) × List ℕ :=
  quantizeCore (fun bins b1 => find_nn (bins.length + 1) bins b1 false)
    msqrt rgba maxColors opts

/-- `quantize(rgba, maxColors, opts)`: the returned palette. -/
def quantize (msqrt : JSNum → JSNum) (rgba : List ℕ) (maxColors : ℕ)
    (opts : QuantizeOptions) : Except String (List (List ℤ)) :=
  (quantizeT msqrt rgba maxColors opts).1

/-- The variant of `quantize` the spec describes: both `find_nn` call sites
receive the pipeline's `hasAlpha` (true for rgba4444) instead of `false`. -/
def quantizeSpecAlphaNN (msqrt : JSNum → JSNum) (rgba : List ℕ) (maxColors : ℕ)
    (opts : QuantizeOptions) : Except String (List (List ℤ)) :=
  (quantizeCore (fun bins b1 => find_nn (bins.length + 1) bins b1
    (opts.format = "rgba4444")) msqrt rgba maxColors opts).1

/-- `quantize` with the alpha-free neighbor search substituted at both call
sites. -/
def quantizeRgbOnlyNN (msqrt : JSNum → JSNum) (rgba : List ℕ) (maxColors : ℕ)
    (opts : QuantizeOptions) : Except String (List (List ℤ)) :=
  (quantizeCore (fun bins b1 => find_nn_rgb (bins.length + 1) bins b1)
    msqrt rgba maxColors opts).1

/-!  GIF assembler (src/index.ts).  Modelled from the spec where the helper
modules are absent from the sources: `stream.js` (§4.7: a growable byte buffer
with `writeByte`; modelled as a `List ℕ` of written bytes, `writeByte`
truncating to a byte as a `Uint8Array` store does) and `lzwEncode.js`
(§4.5; the assembler theorems below are parameterized by an arbitrary
`lzw : List ℕ → ℕ → List ℕ` standing for its output on an index stream and
color depth, which both encoder modes hand to `encodePixels` unchanged). -/

/-- `stream.writeByte` (spec §4.7): append one byte, truncated as a
`Uint8Array` store truncates. -/
def writeByte (s : List ℕ) (b : ℕ) : List ℕ := s ++ [b % 256]

/-- `writeByte` for a JS number that may be negative (`ToUint8` semantics). -/
def writeByteI (s : List ℕ) (b : ℤ) : List ℕ := s ++ [(b % 256).toNat]

/-- The two bytes `writeUInt16` emits: `short & 0xff` and `(short >> 8) & 0xff`
after JS `ToInt32`, i.e. the two low bytes of `short mod 2^32`. -/
def writeUInt16Bytes (short : ℤ) : List ℕ :=
  let m := (short % 4294967296).toNat
  [m % 256, m / 256 % 256]

/-- `writeUInt16(stream, short)` from index.ts (little-endian). -/
def writeUInt16 (s : List ℕ) (short : ℤ) : List ℕ := s ++ writeUInt16Bytes short

/-- `writeUTFBytes(stream, text)` from index.ts (`charCodeAt` of ASCII text). -/
def writeUTFBytes (s : List ℕ) (text : String) : List ℕ :=
  s ++ text.toList.map (fun c => c.toNat % 256)

/-- `⌈log₂ n⌉` by repeated halving (`ceilLog2 n = 1 + ceilLog2 ⌈n/2⌉` for
`n ≥ 2`); total via a structural fuel that suffices since `log₂ n ≤ n`. -/
def ceilLog2Go : ℕ → ℕ → ℕ
  | 0, _ => 0
  | fuel + 1, m => if m ≤ 1 then 0 else 1 + ceilLog2Go fuel ((m + 1) / 2)

/-- `Math.ceil(Math.log2(n))` for a palette length: exact for all `n ≤ 256`
(the doubles involved round correctly there), and `-∞` for `n = 0` which the
`max(·, 1)` of `colorTableSize` absorbs just as it absorbs our `0`. -/
def ceilLog2 (n : ℕ) : ℕ := ceilLog2Go n n

/-- `colorTableSize(length) = Math.max(Math.ceil(Math.log2(length)), 1)`
from index.ts. -/
def colorTableSize (length : ℕ) : ℕ := max (ceilLog2 length) 1

/-- Loop of `encodeColorTable`: emit entry `i` (the palette color below the
palette length, `[0,0,0]` past it), 3 bytes each, for `remaining` more
entries. -/
def encodeColorTableGo (palette : List (List ℤ)) : ℕ → ℕ → List ℕ → List ℕ
  | 0, _, s => s
  | remaining + 1, i, s =>
      let color : List ℤ := if i < palette.length then palette.getD i [] else [0, 0, 0]
      let s := writeByteI s (color.getD 0 0)
      let s := writeByteI s (color.getD 1 0)
      let s := writeByteI s (color.getD 2 0)
      encodeColorTableGo palette remaining (i + 1) s

/-- `encodeColorTable(stream, palette)` from index.ts. -/
def encodeColorTable (s : List ℕ) (palette : List (List ℤ)) : List ℕ :=
  encodeColorTableGo palette (1 <<< colorTableSize palette.length) 0 s

/-- `encodeGraphicControlExt` from index.ts (`delay` arrives already divided
by 10 and rounded). -/
def encodeGraphicControlExt (s : List ℕ) (dispose delay : ℤ) (transparent : Bool)
    (transparentIndex : ℤ) : List ℕ :=
  let s := writeByte s 0x21
  let s := writeByte s 0xf9
  let s := writeByte s 4
  let (transIndex, isTransparent) :=
    if transparentIndex < 0 then ((0 : ℤ), false) else (transparentIndex, transparent)
  let (transp, disp) := if !isTransparent then ((0 : ℕ), (0 : ℕ)) else (1, 2)
  let disp := if 0 ≤ dispose then ((dispose % 8).toNat) else disp
  let disp := disp <<< 2
  let userInput := 0
  let s := writeByte s (0 ||| disp ||| userInput ||| transp)
  let s := writeByteI s transIndex
  let s := writeUInt16 s delay
  writeByte s 0

/-- `encodeLogicalScreenDescriptor` from index.ts (`width`/`height` arrive
clamped and floored by `writeFrame`). -/
def encodeLogicalScreenDescriptor (s : List ℕ) (width height : ℕ)
    (palette : List (List ℤ)) (colorDepth : ℕ) : List ℕ :=
  let globalColorTableFlag := 1
  let sortFlag := 0
  let globalColorTableSize := colorTableSize palette.length - 1
  let fields := (globalColorTableFlag <<< 7) ||| ((colorDepth - 1) <<< 4) |||
    (sortFlag <<< 3) ||| globalColorTableSize
  let backgroundColorIndex := 0
  let pixelAspectRatio := 0
  let s := writeUInt16 s (width : ℤ)
  let s := writeUInt16 s (height : ℤ)
  let s := writeByte s fields
  let s := writeByte s backgroundColorIndex
  writeByte s pixelAspectRatio

/-- `encodeNetscapeExt` from index.ts. -/
def encodeNetscapeExt (s : List ℕ) (repeatCount : ℤ) : List ℕ :=
  let s := writeByte s 0x21
  let s := writeByte s 0xff
  let s := writeByte s 11
  let s := writeUTFBytes s "NETSCAPE2.0"
  let s := writeByte s 3
  let s := writeByte s 1
  let s := writeUInt16 s repeatCount
  writeByte s 0

/-- `encodeImageDescriptor` from index.ts. -/
def encodeImageDescriptor (s : List ℕ) (width height : ℕ)
    (localPalette : Option (List (List ℤ))) : List ℕ :=
  let s := writeByte s 0x2c
  let s := writeUInt16 s 0
  let s := writeUInt16 s 0
  let s := writeUInt16 s (width : ℤ)
  let s := writeUInt16 s (height : ℤ)
  match localPalette with
  | some pal =>
      let interlace := 0
      let sorted := 0
      let palSize := colorTableSize pal.length - 1
      writeByte s (0x80 ||| interlace ||| sorted ||| 0 ||| palSize)
  | none => writeByte s 0

/-- Options of `writeFrame` with the source's defaults (`repeatCount` is the
source's `repeat`, a reserved word here). -/
structure WriteFrameOpts where
  palette : Option (List (List ℤ)) := none
  first : Bool := false
  transparent : Bool := false
  transparentIndex : ℤ := 0
  delay : JSNum := 0
  repeatCount : ℤ := 0
  colorDepth : ℕ := 8
  dispose : ℤ := -1

/-- State of a `GIFEncoder()` instance: the bytes written so far and the
`hasInit` flag. -/
structure EncState where
  stream : List ℕ
  hasInit : Bool

/-- `writeHeader()`: write the six ASCII bytes `GIF89a`. -/
def writeHeader (st : EncState) : EncState :=
  ⟨writeUTFBytes st.stream "GIF89a", st.hasInit⟩

/-- The part of `writeFrame` after the first-frame block: GCE, image
descriptor (with the local color table exactly when a palette was passed and
the frame is not first), and the LZW-compressed pixels. -/
def writeFrameTail (lzw : List ℕ → ℕ → List ℕ) (first : Bool) (index : List ℕ)
    (frameWidth frameHeight : ℕ) (opts : WriteFrameOpts) (s : List ℕ) : List ℕ :=
  let delayTime := (opts.delay / 10).round
  let s := encodeGraphicControlExt s opts.dispose delayTime opts.transparent
    opts.transparentIndex
  let s := match opts.palette, first with
    | some pal, false =>
        let s := encodeImageDescriptor s frameWidth frameHeight (some pal)
        encodeColorTable s pal
    | _, _ => encodeImageDescriptor s frameWidth frameHeight none
  s ++ lzw index opts.colorDepth

/-- `writeFrame(index, width, height, opts)` from index.ts, for an encoder
constructed with `auto`; `lzw` stands for the missing `lzwEncode` module
(both modes hand `index` and `colorDepth` to it unchanged). -/
def writeFrame (lzw : List ℕ → ℕ → List ℕ) (auto : Bool) (st : EncState)
    (index : List ℕ) (width height : JSNum) (opts : WriteFrameOpts) :
    Except String EncState :=
  let (first, stream0, hasInit') :=
    if auto then
      if !st.hasInit then (true, writeUTFBytes st.stream "GIF89a", true)
      else (false, st.stream, st.hasInit)
    else (opts.first, st.stream, st.hasInit)
  let frameWidth := (max 0 width.floorInt).toNat
  let frameHeight := (max 0 height.floorInt).toNat
  if first then
    match opts.palette with
    | none => .error "First frame must include a \x7b palette \x7d option"
    | some pal =>
        let s := encodeLogicalScreenDescriptor stream0 frameWidth frameHeight pal
          opts.colorDepth
        let s := encodeColorTable s pal
        let s := if 0 ≤ opts.repeatCount then encodeNetscapeExt s opts.repeatCount else s
        .ok ⟨writeFrameTail lzw first index frameWidth frameHeight opts s, hasInit'⟩
  else .ok ⟨writeFrameTail lzw first index frameWidth frameHeight opts stream0, hasInit'⟩

/-- One frame handed to `writeFrame`. -/
structure Frame where
  index : List ℕ
  width : JSNum
  height : JSNum
  opts : WriteFrameOpts

/-- Run a sequence of `writeFrame` calls, stopping at the first error, as a
caller whose exception aborts the remaining calls observes. -/
def runFrames (lzw : List ℕ → ℕ → List ℕ) (auto : Bool) :
    EncState → List Frame → Except String EncState
  | st, [] => .ok st
  | st, f :: fs => do
      let st' ← writeFrame lzw auto st f.index f.width f.height f.opts
      runFrames lzw auto st' fs

/-- Replace a frame's `first` option. -/
def setFirst (f : Frame) (b : Bool) : Frame :=
  { f with opts := { f.opts with first := b } }

/-- The manual-mode calling convention of the claim: `first: true` on the
first frame only. -/
def manualFirstFlags : List Frame → List Frame
  | [] => []
  | f :: fs => setFirst f true :: fs.map (fun fr => setFirst fr false)

/-- The three bytes `encodeColorTable` emits for entry `i`. -/
def colorTableEntry (palette : List (List ℤ)) (i : ℕ) : List ℕ :=
  let color : List ℤ := if i < palette.length then palette.getD i [] else [0, 0, 0]
  [((color.getD 0 0) % 256).toNat, ((color.getD 1 0) % 256).toNat,
    ((color.getD 2 0) % 256).toNat]

/-- The collapsed form of the nearest-index scans: one comparison of the full
distance per entry, updating on ties exactly as the staged loop does. -/
def scanGo : List JSNum → ℕ → ℕ → JSNum → ℕ × JSNum
  | [], _, k, m => (k, m)
  | d :: rest, i, k, m =>
      if d > m then scanGo rest (i + 1) k m else scanGo rest (i + 1) i d

/-- The full squared distance the RGB scan accumulates for a palette entry,
in accumulation order. -/
def distRGBJS (r g b : JSNum) (p : List ℤ) : JSNum :=
  sqr ((p.getD 0 0 : ℤ) - r) + sqr ((p.getD 1 0 : ℤ) - g) + sqr ((p.getD 2 0 : ℤ) - b)

/-- The full squared distance the RGBA scan accumulates (alpha first). -/
def distRGBAJS (r g b a : JSNum) (p : List ℤ) : JSNum :=
  sqr ((p.getD 3 0 : ℤ) - a) + sqr ((p.getD 0 0 : ℤ) - r) +
    sqr ((p.getD 1 0 : ℤ) - g) + sqr ((p.getD 2 0 : ℤ) - b)

/-- The rational value of the RGB distance for natural channel values. -/
def distRGBQ (r g b : ℕ) (p : List ℤ) : ℚ :=
  ((p.getD 0 0 : ℚ) - r) * ((p.getD 0 0 : ℚ) - r) +
    ((p.getD 1 0 : ℚ) - g) * ((p.getD 1 0 : ℚ) - g) +
    ((p.getD 2 0 : ℚ) - b) * ((p.getD 2 0 : ℚ) - b)

/-- The rational value of the RGBA distance for natural channel values. -/
def distRGBAQ (r g b a : ℕ) (p : List ℤ) : ℚ :=
  ((p.getD 3 0 : ℚ) - a) * ((p.getD 3 0 : ℚ) - a) +
    ((p.getD 0 0 : ℚ) - r) * ((p.getD 0 0 : ℚ) - r) +
    ((p.getD 1 0 : ℚ) - g) * ((p.getD 1 0 : ℚ) - g) +
    ((p.getD 2 0 : ℚ) - b) * ((p.getD 2 0 : ℚ) - b)

/-- `finish()`: write the trailer byte `0x3B` (constants.js is absent from the
sources; the spec fixes the trailer). -/
def finish (st : EncState) : EncState :=
  ⟨writeByte st.stream 0x3b, st.hasInit⟩

end Gifenc

deriving instance DecidableEq for Except

namespace Gifenc

/-! Lemmas and claim theorems. -/

theorem find_nnGo_false_eq (bins : List Bin) (n1 wa wr wg wb : JSNum) :
    ∀ fuel i nn err, find_nnGo bins false n1 wa wr wg wb fuel i nn err =
      find_nnGoRgb bins n1 wr wg wb fuel i nn err := by
  intro fuel
  induction fuel with
  | zero => intro i nn err; rfl
  | succ f ih =>
      intro i nn err
      cases i with
      | zero => rfl
      | succ j =>
          simp only [find_nnGo, find_nnGoRgb, Bool.false_eq_true, if_false, ih]

theorem find_nn_false_eq (fuel : ℕ) (bins : List Bin) (idx : ℕ) :
    find_nn fuel bins idx false = find_nn_rgb fuel bins idx := by
  simp only [find_nn, find_nn_rgb, find_nnGo_false_eq]

/-- C1: for the 1-pixel input `(10,20,30,255)` and `maxColors = 0`, `quantize`
still returns a palette with one entry — the merge loop self-merges the only
bin (its `nn` is 0, itself) and the fill walk always emits bin 0, so the
documented invariant `|palette| ≤ maxColors` fails at `maxColors = 0`. -/
theorem quantize_maxcolors_zero_returns_one_color :
    quantize id [10, 20, 30, 255] 0 {} = .ok [[10, 20, 30]] := by decide

/-- C2 counterexample: a three-pixel rgba4444 input on which `quantize` (whose
`find_nn` calls pass `hasAlpha = false`) merges the two bins with equal RGB
but opposite alpha, while the variant that hands `find_nn` the pipeline's
`hasAlpha` merges by alpha-aware error and produces a different palette. -/
theorem quantize_alpha_counterexample :
    quantize id [0, 0, 0, 0, 0, 0, 0, 255, 16, 0, 0, 255] 2
        { format := "rgba4444" } = .ok [[0, 0, 0, 128], [16, 0, 0, 255]] ∧
    quantizeSpecAlphaNN id [0, 0, 0, 0, 0, 0, 0, 255, 16, 0, 0, 255] 2
        { format := "rgba4444" } = .ok [[0, 0, 0, 0], [8, 0, 0, 255]] ∧
    quantize id [0, 0, 0, 0, 0, 0, 0, 255, 16, 0, 0, 255] 2
        { format := "rgba4444" } ≠
      quantizeSpecAlphaNN id [0, 0, 0, 0, 0, 0, 0, 255, 16, 0, 0, 255] 2
        { format := "rgba4444" } := by
  refine ⟨by decide, by decide, by decide⟩

/-- C2 (amended): both `find_nn` call sites of `quantize` pass
`hasAlpha = false`, so the merge error sums the r, g, b terms only — for every
input, format and option set, `quantize` coincides with the pipeline built on
the alpha-free neighbor search. -/
theorem quantize_merge_error_ignores_alpha (msqrt : JSNum → JSNum)
    (rgba : List ℕ) (maxColors : ℕ) (opts : QuantizeOptions) :
    quantize msqrt rgba maxColors opts = quantizeRgbOnlyNN msqrt rgba maxColors opts := by
  have h : (fun (bins : List Bin) (b1 : ℕ) => find_nn (bins.length + 1) bins b1 false) =
      fun (bins : List Bin) (b1 : ℕ) => find_nn_rgb (bins.length + 1) bins b1 := by
    funext bins b1
    exact find_nn_false_eq _ _ _
  simp only [quantize, quantizeT, quantizeRgbOnlyNN, h]

/-- C3 counterexample: a two-entry palette whose entries are both at distance
0 from the pixel; the scan returns index 1, not the earlier index 0, because
the update guard is `curdist > mindist` (strict), so an exact tie updates. -/
theorem nearest_index_tie_counterexample :
    nearestColorIndexRGB 0 0 0 [[0, 0, 0], [0, 0, 0]] = 1 ∧ (1 : ℕ) ≠ 0 := by
  exact ⟨by decide, by decide⟩

/-- C4 counterexample: with the empty palette the scan never updates `k`, so
`applyPalette` returns the byte 0 for each pixel, which is not in the empty
range `[0, |P| − 1]`. -/
theorem applyPalette_empty_palette_counterexample :
    applyPalette [1, 2, 3, 4] [] "rgb565" = .ok [0] ∧
      ¬ (0 < ([] : List (List ℤ)).length) := by
  exact ⟨by decide, by decide⟩

/-- C8 counterexample: a genuine 5-byte `Uint8Array` with a small palette is
not an invalid input in the claim's sense, yet `applyPalette` still throws —
the `Uint32Array` view construction fails because the byte length is not a
multiple of 4. -/
theorem applyPalette_error_counterexample :
    applyPalette [0, 0, 0, 0, 0] [[0, 0, 0]] "rgb565" =
      .error "RangeError: byte length of Uint32Array should be a multiple of 4" ∧
    ¬ (256 < ([[0, 0, 0]] : List (List ℤ)).length) := by
  exact ⟨by decide, by decide⟩

theorem encodeColorTableGo_append (palette : List (List ℤ)) :
    ∀ rem i s, encodeColorTableGo palette rem i s =
      s ++ encodeColorTableGo palette rem i [] := by
  intro rem
  induction rem with
  | zero => intro i s; simp [encodeColorTableGo]
  | succ m ih =>
      intro i s
      rw [encodeColorTableGo, encodeColorTableGo]
      rw [ih _ (writeByteI (writeByteI (writeByteI s _) _) _),
        ih _ (writeByteI (writeByteI (writeByteI [] _) _) _)]
      simp [writeByteI]

theorem encodeColorTableGo_length (palette : List (List ℤ)) :
    ∀ rem i s, (encodeColorTableGo palette rem i s).length = s.length + 3 * rem := by
  intro rem
  induction rem with
  | zero => intro i s; simp [encodeColorTableGo]
  | succ m ih =>
      intro i s
      rw [encodeColorTableGo, ih]
      simp [writeByteI]
      ring


theorem encodeColorTableGo_cons (palette : List (List ℤ)) (m i : ℕ) (s : List ℕ) :
    encodeColorTableGo palette (m + 1) i s =
      (s ++ colorTableEntry palette i) ++ encodeColorTableGo palette m (i + 1) [] := by
  rw [encodeColorTableGo, encodeColorTableGo_append]
  have h : ∀ t : List ℕ, ∀ c : List ℤ,
      writeByteI (writeByteI (writeByteI t (c.getD 0 0)) (c.getD 1 0)) (c.getD 2 0) =
        t ++ [((c.getD 0 0) % 256).toNat, ((c.getD 1 0) % 256).toNat,
          ((c.getD 2 0) % 256).toNat] := by
    intro t c
    simp [writeByteI]
  rw [h]
  rfl

theorem encodeColorTableGo_entry (palette : List (List ℤ)) :
    ∀ rem j i s, j < rem →
      ((encodeColorTableGo palette rem i s).drop (s.length + 3 * j)).take 3 =
        colorTableEntry palette (i + j) := by
  intro rem
  induction rem with
  | zero => intro j i s hj; omega
  | succ m ih =>
      intro j i s hj
      rw [encodeColorTableGo_cons]
      cases j with
      | zero =>
          rw [Nat.mul_zero, Nat.add_zero, List.append_assoc, List.drop_left,
            List.take_left']
          · simp
          · rfl
      | succ j' =>
          have step := ih j' (i + 1) (s ++ colorTableEntry palette i) (by omega)
          rw [encodeColorTableGo_append] at step
          have hlen : (s ++ colorTableEntry palette i).length = s.length + 3 := by
            simp [colorTableEntry]
          rw [hlen] at step
          have harith : s.length + 3 + 3 * j' = s.length + 3 * (j' + 1) := by ring
          rw [harith] at step
          have hidx : i + 1 + j' = i + (j' + 1) := by ring
          rw [hidx] at step
          exact step

/-- C5: every color table the assembler emits (`encodeColorTable` serves both
the global and the local table) has exactly `1 << max(⌈log₂ |P|⌉, 1)` entries
of 3 bytes each: entries at positions at or past `|P|` are the zero-padded
color `[0,0,0]`, entries below `|P|` are the palette entry's three channel
bytes. -/
theorem color_table_shape (palette : List (List ℤ)) (s : List ℕ) :
    (encodeColorTable s palette).length =
      s.length + 3 * (1 <<< colorTableSize palette.length) ∧
    (∀ i, i < 1 <<< colorTableSize palette.length → palette.length ≤ i →
      ((encodeColorTable s palette).drop (s.length + 3 * i)).take 3 = [0, 0, 0]) ∧
    (∀ i, i < palette.length → i < 1 <<< colorTableSize palette.length →
      ((encodeColorTable s palette).drop (s.length + 3 * i)).take 3 =
        [(((palette.getD i []).getD 0 0) % 256).toNat,
         (((palette.getD i []).getD 1 0) % 256).toNat,
         (((palette.getD i []).getD 2 0) % 256).toNat]) := by
  refine ⟨encodeColorTableGo_length palette _ 0 s, ?_, ?_⟩
  · intro i hi hpi
    have h := encodeColorTableGo_entry palette _ i 0 s hi
    rw [encodeColorTable, h]
    simp [colorTableEntry, Nat.not_lt.mpr hpi]
  · intro i hip hi
    have h := encodeColorTableGo_entry palette _ i 0 s hi
    rw [encodeColorTable, h]
    simp [colorTableEntry, hip]

theorem color_table_shape_witness :
    (encodeColorTable [] [[1, 2, 3], [4, 5, 6], [300, -1, 7]]).length =
      ([] : List ℕ).length +
        3 * (1 <<< colorTableSize ([[1, 2, 3], [4, 5, 6], [300, -1, 7]] :
          List (List ℤ)).length) ∧
    ((encodeColorTable [] [[1, 2, 3], [4, 5, 6], [300, -1, 7]]).drop
        (([] : List ℕ).length + 3 * 3)).take 3 = [0, 0, 0] ∧
    ((encodeColorTable [] [[1, 2, 3], [4, 5, 6], [300, -1, 7]]).drop
        (([] : List ℕ).length + 3 * 2)).take 3 = [44, 255, 7] := by
  refine ⟨(color_table_shape [[1, 2, 3], [4, 5, 6], [300, -1, 7]] []).1,
    (color_table_shape [[1, 2, 3], [4, 5, 6], [300, -1, 7]] []).2.1 3 (by decide)
      (by decide), ?_⟩
  have h := (color_table_shape [[1, 2, 3], [4, 5, 6], [300, -1, 7]] []).2.2 2
    (by decide) (by decide)
  simpa using h

/-- C10: `writeFrame` emits its width and height both into the Image
Descriptor and (on a first frame) into the Logical Screen Descriptor as
`max(0, Math.floor(width))` and `max(0, Math.floor(height))` — fractional
arguments are floored and negative arguments clamped to 0 before any bytes are
written, and the two descriptors serialize exactly those values through
`writeUInt16` (whose bytes for a natural `W` are `W % 256` and
`W / 256 % 256`). -/
theorem writeFrame_dims_floored_clamped
    (lzw : List ℕ → ℕ → List ℕ) (s : List ℕ) (hi : Bool) (index : List ℕ)
    (w h : JSNum) (pal : List (List ℤ)) (o : WriteFrameOpts) :
    (writeFrame lzw false ⟨s, hi⟩ index w h { o with first := false } =
      .ok ⟨writeFrameTail lzw false index (max 0 w.floorInt).toNat
        (max 0 h.floorInt).toNat { o with first := false } s, hi⟩) ∧
    (writeFrame lzw false ⟨s, hi⟩ index w h
        { o with first := true, palette := some pal } =
      .ok ⟨writeFrameTail lzw true index (max 0 w.floorInt).toNat
        (max 0 h.floorInt).toNat { o with first := true, palette := some pal }
        (let s1 := encodeLogicalScreenDescriptor s (max 0 w.floorInt).toNat
            (max 0 h.floorInt).toNat pal o.colorDepth
         let s2 := encodeColorTable s1 pal
         if 0 ≤ o.repeatCount then encodeNetscapeExt s2 o.repeatCount else s2),
        hi⟩) ∧
    (∀ (s' : List ℕ) (W H : ℕ),
      encodeImageDescriptor s' W H none =
        s' ++ [0x2c] ++ writeUInt16Bytes 0 ++ writeUInt16Bytes 0 ++
          writeUInt16Bytes (W : ℤ) ++ writeUInt16Bytes (H : ℤ) ++ [0]) ∧
    (∀ (s' : List ℕ) (W H cd : ℕ),
      encodeLogicalScreenDescriptor s' W H pal cd =
        s' ++ writeUInt16Bytes (W : ℤ) ++ writeUInt16Bytes (H : ℤ) ++
          [((1 <<< 7) ||| ((cd - 1) <<< 4) ||| (0 <<< 3) |||
            (colorTableSize pal.length - 1)) % 256, 0, 0]) ∧
    (∀ W : ℕ, writeUInt16Bytes (W : ℤ) = [W % 256, W / 256 % 256]) := by
  refine ⟨rfl, rfl, ?_, ?_, ?_⟩
  · intro s' W H
    simp [encodeImageDescriptor, writeByte, writeUInt16, List.append_assoc]
  · intro s' W H cd
    simp [encodeLogicalScreenDescriptor, writeByte, writeUInt16, List.append_assoc]
  · intro W
    simp only [writeUInt16Bytes, List.cons.injEq, and_true]
    refine ⟨by omega, by omega⟩

theorem apGoRGBA_state (palette : List (List ℤ)) :
    ∀ pixels cache out dataAcc pal,
      (apGoRGBA palette pixels cache out dataAcc pal).2.1 = dataAcc.reverse ++ pixels ∧
      (apGoRGBA palette pixels cache out dataAcc pal).2.2 = pal := by
  intro pixels
  induction pixels with
  | nil => intro cache out dataAcc pal; simp [apGoRGBA]
  | cons color rest ih =>
      intro cache out dataAcc pal
      rw [apGoRGBA]
      split
      · simpa using ih _ _ (color :: dataAcc) pal
      · simpa using ih _ _ (color :: dataAcc) pal

theorem apGoRGB_state (palette : List (List ℤ)) (hasAlpha : Bool) :
    ∀ pixels cache out dataAcc pal,
      (apGoRGB palette hasAlpha pixels cache out dataAcc pal).2.1 =
        dataAcc.reverse ++ pixels ∧
      (apGoRGB palette hasAlpha pixels cache out dataAcc pal).2.2 = pal := by
  intro pixels
  induction pixels with
  | nil => intro cache out dataAcc pal; simp [apGoRGB]
  | cons color rest ih =>
      intro cache out dataAcc pal
      rw [apGoRGB]
      split
      · simpa using ih _ _ (color :: dataAcc) pal
      · simpa using ih _ _ (color :: dataAcc) pal

theorem cblGoRGBA_state :
    ∀ pixels bins dataAcc,
      (cblGoRGBA pixels bins dataAcc).2 = dataAcc.reverse ++ pixels := by
  intro pixels
  induction pixels with
  | nil => intro bins dataAcc; simp [cblGoRGBA]
  | cons color rest ih =>
      intro bins dataAcc
      rw [cblGoRGBA]
      simpa using ih _ (color :: dataAcc)

theorem cblGoRGB444_state :
    ∀ pixels bins dataAcc,
      (cblGoRGB444 pixels bins dataAcc).2 = dataAcc.reverse ++ pixels := by
  intro pixels
  induction pixels with
  | nil => intro bins dataAcc; simp [cblGoRGB444]
  | cons color rest ih =>
      intro bins dataAcc
      rw [cblGoRGB444]
      simpa using ih _ (color :: dataAcc)

theorem cblGoRGB565_state :
    ∀ pixels bins dataAcc,
      (cblGoRGB565 pixels bins dataAcc).2 = dataAcc.reverse ++ pixels := by
  intro pixels
  induction pixels with
  | nil => intro bins dataAcc; simp [cblGoRGB565]
  | cons color rest ih =>
      intro bins dataAcc
      rw [cblGoRGB565]
      simpa using ih _ (color :: dataAcc)

theorem create_bin_listT_state (data : List ℕ) (format : String) :
    (create_bin_listT data format).2 = data := by
  unfold create_bin_listT
  split
  · simpa using cblGoRGBA_state data [] []
  · split
    · simpa using cblGoRGB444_state data [] []
    · simpa using cblGoRGB565_state data [] []

theorem u32_bytes_roundtrip :
    ∀ l : List ℕ, l.length % 4 = 0 → (∀ b ∈ l, b < 256) →
      u32ToBytes (bytesToU32 l) = l
  | [], _, _ => rfl
  | [_], hlen, _ => by simp at hlen
  | [_, _], hlen, _ => by simp at hlen
  | [_, _, _], hlen, _ => by simp at hlen
  | b0 :: b1 :: b2 :: b3 :: rest, hlen, hb => by
      have h0 : b0 < 256 := hb b0 (by simp)
      have h1 : b1 < 256 := hb b1 (by simp)
      have h2 : b2 < 256 := hb b2 (by simp)
      have h3 : b3 < 256 := hb b3 (by simp)
      rw [bytesToU32, u32ToBytes]
      have hrest := u32_bytes_roundtrip rest
        (by simp at hlen; omega) (fun b hbm => hb b (by simp [hbm]))
      rw [hrest]
      have e0 : (b0 % 256 + 256 * (b1 % 256) + 65536 * (b2 % 256) +
          16777216 * (b3 % 256)) % 256 = b0 := by omega
      have e1 : (b0 % 256 + 256 * (b1 % 256) + 65536 * (b2 % 256) +
          16777216 * (b3 % 256)) / 256 % 256 = b1 := by omega
      have e2 : (b0 % 256 + 256 * (b1 % 256) + 65536 * (b2 % 256) +
          16777216 * (b3 % 256)) / 65536 % 256 = b2 := by omega
      have e3 : (b0 % 256 + 256 * (b1 % 256) + 65536 * (b2 % 256) +
          16777216 * (b3 % 256)) / 16777216 % 256 = b3 := by omega
      rw [e0, e1, e2, e3]

/-- C9: neither `quantize` nor `applyPalette` modifies the caller's `rgba`
bytes or the supplied palette: the final caller-visible buffer contents (the
bytes the threaded `Uint32Array` view denotes after the call) equal the input,
and the palette state equals the supplied palette.  (The byte bound and
length-divisibility hypotheses say the input is a genuine RGBA byte buffer.) -/
theorem quantize_applyPalette_do_not_mutate_input
    (msqrt : JSNum → JSNum) (rgba : List ℕ) (maxColors : ℕ)
    (opts : QuantizeOptions) (palette : List (List ℤ)) (format : String)
    (hbytes : ∀ b ∈ rgba, b < 256) (hlen : rgba.length % 4 = 0) :
    (applyPaletteT rgba palette format).2.1 = rgba ∧
    (applyPaletteT rgba palette format).2.2 = palette ∧
    (quantizeT msqrt rgba maxColors opts).2 = rgba := by
  have hap : (applyPaletteT rgba palette format).2.1 = rgba ∧
      (applyPaletteT rgba palette format).2.2 = palette := by
    unfold applyPaletteT
    by_cases hp : palette.length > 256
    · simp [hp]
    · simp only [hp, if_false, hlen]
      simp only [ne_eq, not_true_eq_false, if_false, ite_not]
      split
      · constructor
        · have h := (apGoRGBA_state palette (bytesToU32 rgba) [] [] [] palette).1
          simp only [List.reverse_nil, List.nil_append] at h
          simp [h, u32_bytes_roundtrip rgba hlen hbytes]
        · exact (apGoRGBA_state palette (bytesToU32 rgba) [] [] [] palette).2
      · constructor
        · have h := (apGoRGB_state palette (decide (format = "rgba4444"))
            (bytesToU32 rgba) [] [] [] palette).1
          simp only [List.reverse_nil, List.nil_append] at h
          simp [h, u32_bytes_roundtrip rgba hlen hbytes]
        · exact (apGoRGB_state palette (decide (format = "rgba4444"))
            (bytesToU32 rgba) [] [] [] palette).2
  refine ⟨hap.1, hap.2, ?_⟩
  unfold quantizeT quantizeCore
  simp only [hlen]
  simp only [ne_eq, not_true_eq_false, if_false, ite_not]
  rw [create_bin_listT_state]
  split
  · simp [u32_bytes_roundtrip rgba hlen hbytes]
  · simp [u32_bytes_roundtrip rgba hlen hbytes]

theorem quantize_applyPalette_do_not_mutate_input_witness :
    (applyPaletteT [1, 2, 3, 4] [[0, 0, 0]] "rgb565").2.1 = [1, 2, 3, 4] ∧
    (applyPaletteT [1, 2, 3, 4] [[0, 0, 0]] "rgb565").2.2 = [[0, 0, 0]] ∧
    (quantizeT id [1, 2, 3, 4] 1 {}).2 = [1, 2, 3, 4] :=
  quantize_applyPalette_do_not_mutate_input id [1, 2, 3, 4] 1 {} [[0, 0, 0]]
    "rgb565" (by decide) (by decide)

theorem writeFrameTail_first_field_irrelevant (lzw : List ℕ → ℕ → List ℕ)
    (fst b : Bool) (index : List ℕ) (fw fh : ℕ) (o : WriteFrameOpts) (s : List ℕ) :
    writeFrameTail lzw fst index fw fh { o with first := b } s =
      writeFrameTail lzw fst index fw fh o s := rfl

theorem except_ok_bind {α β ε : Type} (a : α) (f : α → Except ε β) :
    (Except.ok a : Except ε α) >>= f = f a := rfl

theorem runFrames_after_init (lzw : List ℕ → ℕ → List ℕ) :
    ∀ (fs : List Frame) (s : List ℕ) (hi : Bool),
      (runFrames lzw true ⟨s, true⟩ fs).map EncState.stream =
        (runFrames lzw false ⟨s, hi⟩
          (fs.map (fun fr => setFirst fr false))).map EncState.stream := by
  intro fs
  induction fs with
  | nil => intro s hi; rfl
  | cons f fs ih =>
      intro s hi
      have hauto : writeFrame lzw true ⟨s, true⟩ f.index f.width f.height f.opts =
          .ok ⟨writeFrameTail lzw false f.index (max 0 f.width.floorInt).toNat
            (max 0 f.height.floorInt).toNat f.opts s, true⟩ := rfl
      have hman : writeFrame lzw false ⟨s, hi⟩ f.index f.width f.height
          { f.opts with first := false } =
          .ok ⟨writeFrameTail lzw false f.index (max 0 f.width.floorInt).toNat
            (max 0 f.height.floorInt).toNat f.opts s, hi⟩ := rfl
      simp only [runFrames, List.map_cons, setFirst, hauto, hman, except_ok_bind]
      exact ih _ hi

/-- C6: for the same frames, a manual-mode encoder whose caller writes the
header and passes `first: true` on the first frame only produces exactly the
byte stream of the auto-mode encoder (including the error case of a missing
first-frame palette, where both stop identically). -/
theorem manual_mode_equals_auto (lzw : List ℕ → ℕ → List ℕ)
    (frames : List Frame) (hne : frames ≠ []) :
    (runFrames lzw true ⟨[], false⟩ frames).map EncState.stream =
      (runFrames lzw false (writeHeader ⟨[], false⟩)
        (manualFirstFlags frames)).map EncState.stream := by
  match frames with
  | [] => exact absurd rfl hne
  | f :: fs =>
      simp only [manualFirstFlags, runFrames]
      cases hpal : f.opts.palette with
      | none =>
          have hauto : writeFrame lzw true ⟨[], false⟩ f.index f.width f.height
              f.opts = .error "First frame must include a \x7b palette \x7d option" := by
            unfold writeFrame
            simp [hpal]
          have hman : writeFrame lzw false (writeHeader ⟨[], false⟩)
              (setFirst f true).index (setFirst f true).width (setFirst f true).height
              (setFirst f true).opts =
              .error "First frame must include a \x7b palette \x7d option" := by
            unfold writeFrame setFirst
            simp [hpal]
          rw [hauto, hman]
          rfl
      | some pal =>
          have hauto : writeFrame lzw true ⟨[], false⟩ f.index f.width f.height
              f.opts = .ok ⟨writeFrameTail lzw true f.index
                (max 0 f.width.floorInt).toNat (max 0 f.height.floorInt).toNat f.opts
                (let s1 := encodeLogicalScreenDescriptor (writeUTFBytes [] "GIF89a")
                    (max 0 f.width.floorInt).toNat (max 0 f.height.floorInt).toNat pal
                    f.opts.colorDepth
                 let s2 := encodeColorTable s1 pal
                 if 0 ≤ f.opts.repeatCount then encodeNetscapeExt s2 f.opts.repeatCount
                 else s2), true⟩ := by
            unfold writeFrame
            simp [hpal]
          have hman : writeFrame lzw false (writeHeader ⟨[], false⟩)
              (setFirst f true).index (setFirst f true).width (setFirst f true).height
              (setFirst f true).opts =
              .ok ⟨writeFrameTail lzw true f.index
                (max 0 f.width.floorInt).toNat (max 0 f.height.floorInt).toNat f.opts
                (let s1 := encodeLogicalScreenDescriptor (writeUTFBytes [] "GIF89a")
                    (max 0 f.width.floorInt).toNat (max 0 f.height.floorInt).toNat pal
                    f.opts.colorDepth
                 let s2 := encodeColorTable s1 pal
                 if 0 ≤ f.opts.repeatCount then encodeNetscapeExt s2 f.opts.repeatCount
                 else s2), false⟩ := by
            unfold writeFrame setFirst writeHeader
            simp only [hpal]
            unfold writeFrameTail
            simp [hpal]
          rw [hauto, hman]
          simp only [except_ok_bind]
          exact runFrames_after_init lzw fs _ false

theorem manual_mode_equals_auto_witness :
    (runFrames (fun index cd => cd :: index) true ⟨[], false⟩
      [⟨[0, 1], 2, 1, { palette := some [[0, 0, 0], [255, 255, 255]] }⟩,
       ⟨[1, 0], 2, 1, {}⟩]).map EncState.stream =
    (runFrames (fun index cd => cd :: index) false (writeHeader ⟨[], false⟩)
      (manualFirstFlags
        [⟨[0, 1], 2, 1, { palette := some [[0, 0, 0], [255, 255, 255]] }⟩,
         ⟨[1, 0], 2, 1, {}⟩])).map EncState.stream :=
  manual_mode_equals_auto (fun index cd => cd :: index)
    [⟨[0, 1], 2, 1, { palette := some [[0, 0, 0], [255, 255, 255]] }⟩,
     ⟨[1, 0], 2, 1, {}⟩] (List.cons_ne_nil _ _)

theorem nciRGBGo_bound (r g b : JSNum) :
    ∀ (pal : List (List ℤ)) (i k : ℕ) (m : JSNum),
      nciRGBGo r g b pal i k m = k ∨
        (i ≤ nciRGBGo r g b pal i k m ∧ nciRGBGo r g b pal i k m < i + pal.length) := by
  intro pal
  induction pal with
  | nil => intro i k m; left; rfl
  | cons px rest ih =>
      intro i k m
      simp only [nciRGBGo]
      split_ifs with h1 h2 h3
      · rcases ih (i + 1) k m with hyp | ⟨p1, p2⟩
        · left; exact hyp
        · right; simp only [List.length_cons]; omega
      · rcases ih (i + 1) k m with hyp | ⟨p1, p2⟩
        · left; exact hyp
        · right; simp only [List.length_cons]; omega
      · rcases ih (i + 1) k m with hyp | ⟨p1, p2⟩
        · left; exact hyp
        · right; simp only [List.length_cons]; omega
      · rcases ih (i + 1) i _ with hyp | ⟨p1, p2⟩
        · right; rw [hyp]; simp only [List.length_cons]; omega
        · right; simp only [List.length_cons]; omega

theorem nciRGBAGo_bound (r g b a : JSNum) :
    ∀ (pal : List (List ℤ)) (i k : ℕ) (m : JSNum),
      nciRGBAGo r g b a pal i k m = k ∨
        (i ≤ nciRGBAGo r g b a pal i k m ∧
          nciRGBAGo r g b a pal i k m < i + pal.length) := by
  intro pal
  induction pal with
  | nil => intro i k m; left; rfl
  | cons px rest ih =>
      intro i k m
      simp only [nciRGBAGo]
      split_ifs with h1 h2 h3 h4
      · rcases ih (i + 1) k m with hyp | ⟨p1, p2⟩
        · left; exact hyp
        · right; simp only [List.length_cons]; omega
      · rcases ih (i + 1) k m with hyp | ⟨p1, p2⟩
        · left; exact hyp
        · right; simp only [List.length_cons]; omega
      · rcases ih (i + 1) k m with hyp | ⟨p1, p2⟩
        · left; exact hyp
        · right; simp only [List.length_cons]; omega
      · rcases ih (i + 1) k m with hyp | ⟨p1, p2⟩
        · left; exact hyp
        · right; simp only [List.length_cons]; omega
      · rcases ih (i + 1) i _ with hyp | ⟨p1, p2⟩
        · right; rw [hyp]; simp only [List.length_cons]; omega
        · right; simp only [List.length_cons]; omega

theorem nearestColorIndexRGB_lt (r g b : ℕ) (palette : List (List ℤ))
    (h0 : 0 < palette.length) : nearestColorIndexRGB r g b palette < palette.length := by
  unfold nearestColorIndexRGB
  rcases nciRGBGo_bound (r : ℕ) (g : ℕ) (b : ℕ) palette 0 0 jsBig with hyp | ⟨_, h2⟩
  · omega
  · omega

theorem nearestColorIndexRGBA_lt (r g b a : ℕ) (palette : List (List ℤ))
    (h0 : 0 < palette.length) :
    nearestColorIndexRGBA r g b a palette < palette.length := by
  unfold nearestColorIndexRGBA
  rcases nciRGBAGo_bound (r : ℕ) (g : ℕ) (b : ℕ) (a : ℕ) palette 0 0 jsBig with hyp | ⟨_, h2⟩
  · omega
  · omega

theorem lookup_mem_snd : ∀ (l : List (ℕ × ℕ)) (k v : ℕ),
    l.lookup k = some v → v ∈ l.map Prod.snd
  | [], _, _, hyp => by simp [List.lookup] at hyp
  | (a, bb) :: rest, k, v, hyp => by
      rw [List.lookup] at hyp
      by_cases hk : k == a
      · simp only [hk, if_true] at hyp
        simp only [Option.some.injEq] at hyp
        simp [hyp]
      · simp only [hk, if_false] at hyp
        have := lookup_mem_snd rest k v hyp
        simp only [List.map_cons, List.mem_cons]
        right
        exact this

theorem apGoRGBA_bound (palette pal : List (List ℤ)) (h0 : 0 < pal.length)
    (h256 : pal.length ≤ 256) :
    ∀ pixels cache outAcc dataAcc,
      (∀ v ∈ cache.map Prod.snd, v < pal.length) →
      (∀ v ∈ outAcc, v < pal.length) →
      ∀ v ∈ (apGoRGBA palette pixels cache outAcc dataAcc pal).1, v < pal.length := by
  intro pixels
  induction pixels with
  | nil =>
      intro cache outAcc dataAcc _ hout v hv
      rw [apGoRGBA] at hv
      simp only [List.mem_reverse] at hv
      exact hout v hv
  | cons color rest ih =>
      intro cache outAcc dataAcc hcache hout
      rw [apGoRGBA]
      split
      next idx hl =>
        have hidx : idx < pal.length := hcache idx (lookup_mem_snd _ _ _ hl)
        refine ih _ _ _ hcache ?_
        intro v hv
        rcases List.mem_cons.mp hv with hyp | hyp
        · rw [hyp, Nat.mod_eq_of_lt (by omega)]; exact hidx
        · exact hout v hyp
      next hl =>
        have hidx : nearestColorIndexRGBA (chanR color) (chanG color) (chanB color)
            (chanA color) pal < pal.length := nearestColorIndexRGBA_lt _ _ _ _ _ h0
        refine ih _ _ _ ?_ ?_
        · intro v hv
          simp only [List.map_cons, List.mem_cons] at hv
          rcases hv with hyp | hyp
          · rw [hyp]; exact hidx
          · exact hcache v hyp
        · intro v hv
          rcases List.mem_cons.mp hv with hyp | hyp
          · rw [hyp, Nat.mod_eq_of_lt (by omega)]; exact hidx
          · exact hout v hyp

theorem apGoRGB_bound (palette pal : List (List ℤ)) (hasAlpha : Bool)
    (h0 : 0 < pal.length) (h256 : pal.length ≤ 256) :
    ∀ pixels cache outAcc dataAcc,
      (∀ v ∈ cache.map Prod.snd, v < pal.length) →
      (∀ v ∈ outAcc, v < pal.length) →
      ∀ v ∈ (apGoRGB palette hasAlpha pixels cache outAcc dataAcc pal).1,
        v < pal.length := by
  intro pixels
  induction pixels with
  | nil =>
      intro cache outAcc dataAcc _ hout v hv
      rw [apGoRGB] at hv
      simp only [List.mem_reverse] at hv
      exact hout v hv
  | cons color rest ih =>
      intro cache outAcc dataAcc hcache hout
      rw [apGoRGB]
      split
      next idx hl =>
        have hidx : idx < pal.length := hcache idx (lookup_mem_snd _ _ _ hl)
        refine ih _ _ _ hcache ?_
        intro v hv
        rcases List.mem_cons.mp hv with hyp | hyp
        · rw [hyp, Nat.mod_eq_of_lt (by omega)]; exact hidx
        · exact hout v hyp
      next hl =>
        have hidx : nearestColorIndexRGB (chanR color) (chanG color) (chanB color)
            pal < pal.length := nearestColorIndexRGB_lt _ _ _ _ h0
        refine ih _ _ _ ?_ ?_
        · intro v hv
          simp only [List.map_cons, List.mem_cons] at hv
          rcases hv with hyp | hyp
          · rw [hyp]; exact hidx
          · exact hcache v hyp
        · intro v hv
          rcases List.mem_cons.mp hv with hyp | hyp
          · rw [hyp, Nat.mod_eq_of_lt (by omega)]; exact hidx
          · exact hout v hyp

/-- C4 (amended): for every nonempty palette (the empty palette yields the
out-of-range byte 0), every byte of a successfully returned index array is a
valid palette index, i.e. lies in `[0, |P| − 1]`. -/
theorem applyPalette_indices_in_range (rgba : List ℕ) (palette : List (List ℤ))
    (format : String) (h0 : 0 < palette.length) (out : List ℕ)
    (hok : applyPalette rgba palette format = .ok out) :
    ∀ v ∈ out, v < palette.length := by
  unfold applyPalette applyPaletteT at hok
  by_cases h256 : palette.length > 256
  · simp [h256] at hok
  · by_cases hlen4 : rgba.length % 4 ≠ 0
    · simp [h256, hlen4] at hok
    · simp only [h256, hlen4, if_false, ite_not, if_neg, not_false_iff] at hok
      simp only [Except.ok.injEq] at hok
      rw [← hok]
      split
      · exact apGoRGBA_bound palette palette h0 (by omega) _ [] [] []
          (by intro v hv; simp at hv) (by intro v hv; simp at hv)
      · exact apGoRGB_bound palette palette _ h0 (by omega) _ [] [] []
          (by intro v hv; simp at hv) (by intro v hv; simp at hv)

theorem applyPalette_indices_in_range_witness :
    (0 : ℕ) < ([[1, 2, 3]] : List (List ℤ)).length :=
  applyPalette_indices_in_range [10, 20, 30, 255] [[1, 2, 3]] "rgb565"
    (by decide) [0] (by decide) 0 (by decide)

theorem JSNum.den_q_pos (x : JSNum) : (0 : ℚ) < (x.den : ℚ) := by
  exact_mod_cast x.dpos

theorem toRat_le {x y : JSNum} : x ≤ y ↔ x.toRat ≤ y.toRat := by
  show x.num * y.den ≤ y.num * x.den ↔ _
  unfold JSNum.toRat
  rw [div_le_div_iff₀ (JSNum.den_q_pos x) (JSNum.den_q_pos y)]
  exact_mod_cast Iff.rfl

theorem toRat_lt {x y : JSNum} : x < y ↔ x.toRat < y.toRat := by
  show x.num * y.den < y.num * x.den ↔ _
  unfold JSNum.toRat
  rw [div_lt_div_iff₀ (JSNum.den_q_pos x) (JSNum.den_q_pos y)]
  exact_mod_cast Iff.rfl

theorem toRat_add (x y : JSNum) : (x + y).toRat = x.toRat + y.toRat := by
  show ((x.num * y.den + y.num * x.den : ℤ) : ℚ) / ((x.den * y.den : ℤ) : ℚ) = _
  unfold JSNum.toRat
  have hx := (JSNum.den_q_pos x).ne'
  have hy := (JSNum.den_q_pos y).ne'
  push_cast
  field_simp

theorem toRat_sub (x y : JSNum) : (x - y).toRat = x.toRat - y.toRat := by
  show ((x.num * y.den - y.num * x.den : ℤ) : ℚ) / ((x.den * y.den : ℤ) : ℚ) = _
  unfold JSNum.toRat
  have hx := (JSNum.den_q_pos x).ne'
  have hy := (JSNum.den_q_pos y).ne'
  push_cast
  field_simp
  ring

theorem toRat_mul (x y : JSNum) : (x * y).toRat = x.toRat * y.toRat := by
  show ((x.num * y.num : ℤ) : ℚ) / ((x.den * y.den : ℤ) : ℚ) = _
  unfold JSNum.toRat
  have hx := (JSNum.den_q_pos x).ne'
  have hy := (JSNum.den_q_pos y).ne'
  push_cast
  field_simp

theorem toRat_natCast (n : ℕ) : ((n : ℕ) : JSNum).toRat = n := by
  show ((n : ℤ) : ℚ) / ((1 : ℤ) : ℚ) = _
  norm_num

theorem toRat_intCast (z : ℤ) : ((z : ℤ) : JSNum).toRat = z := by
  show ((z : ℤ) : ℚ) / ((1 : ℤ) : ℚ) = _
  norm_num

theorem toRat_jsBig : jsBig.toRat = 10 ^ 100 := by
  show (((10 ^ 100 : ℤ)) : ℚ) / ((1 : ℤ) : ℚ) = _
  norm_num

theorem JSNum.le_refl (x : JSNum) : x ≤ x := by
  rw [toRat_le]

theorem JSNum.le_trans {x y z : JSNum} (h1 : x ≤ y) (h2 : y ≤ z) : x ≤ z := by
  rw [toRat_le] at h1 h2 ⊢
  exact h1.trans h2

theorem JSNum.le_of_lt {x y : JSNum} (h : x < y) : x ≤ y := by
  rw [toRat_lt] at h
  rw [toRat_le]
  exact h.le

theorem JSNum.le_of_not_lt {x y : JSNum} (h : ¬ x < y) : y ≤ x := by
  rw [toRat_lt] at h
  rw [toRat_le]
  exact not_lt.mp h

theorem JSNum.lt_of_lt_of_le {x y z : JSNum} (h1 : x < y) (h2 : y ≤ z) : x < z := by
  rw [toRat_lt] at h1 ⊢
  rw [toRat_le] at h2
  exact h1.trans_le h2

theorem JSNum.lt_of_le_of_lt {x y z : JSNum} (h1 : x ≤ y) (h2 : y < z) : x < z := by
  rw [toRat_le] at h1
  rw [toRat_lt] at h2 ⊢
  exact h1.trans_lt h2

theorem JSNum.le_add_sqr (a x : JSNum) : a ≤ a + sqr x := by
  rw [toRat_le, toRat_add]
  unfold sqr
  rw [toRat_mul]
  nlinarith [mul_self_nonneg x.toRat]


theorem scanGo_spec :
    ∀ (dists : List JSNum) (i k : ℕ) (m : JSNum),
      ((scanGo dists i k m).2 ≤ m ∧
        ∀ j (hj : j < dists.length), (scanGo dists i k m).2 ≤ dists.get ⟨j, hj⟩) ∧
      (((scanGo dists i k m).1 = k ∧ (scanGo dists i k m).2 = m ∧
          ∀ j (hj : j < dists.length), m < dists.get ⟨j, hj⟩) ∨
        (∃ j, ∃ hj : j < dists.length, (scanGo dists i k m).1 = i + j ∧
          (scanGo dists i k m).2 = dists.get ⟨j, hj⟩ ∧
          ∀ j2 (hj2 : j2 < dists.length), j < j2 →
            (scanGo dists i k m).2 < dists.get ⟨j2, hj2⟩)) := by
  intro dists
  induction dists with
  | nil =>
      intro i k m
      refine ⟨⟨JSNum.le_refl m, ?_⟩, Or.inl ⟨rfl, rfl, ?_⟩⟩
      · intro j hj; simp at hj
      · intro j hj; simp at hj
  | cons d rest ih =>
      intro i k m
      simp only [scanGo]
      by_cases hd : d > m
      · rw [if_pos hd]
        obtain ⟨⟨hmin, hminAll⟩, hchar⟩ := ih (i + 1) k m
        refine ⟨⟨hmin, ?_⟩, ?_⟩
        · intro j hj
          cases j with
          | zero =>
              show _ ≤ d
              exact JSNum.le_trans hmin (JSNum.le_of_lt hd)
          | succ j' =>
              show _ ≤ rest.get ⟨j', Nat.lt_of_succ_lt_succ hj⟩
              exact hminAll j' _
        · rcases hchar with ⟨hk, hm, hall⟩ | ⟨j, hj, hk, hm, hlater⟩
          · left
            refine ⟨hk, hm, ?_⟩
            intro j hj
            cases j with
            | zero => exact hd
            | succ j' =>
                show m < rest.get ⟨j', Nat.lt_of_succ_lt_succ hj⟩
                exact hall j' _
          · right
            refine ⟨j + 1, Nat.succ_lt_succ hj, ?_, ?_, ?_⟩
            · rw [hk]; omega
            · exact hm
            · intro j2 hj2 hgt
              cases j2 with
              | zero => omega
              | succ j2' =>
                  show _ < rest.get ⟨j2', Nat.lt_of_succ_lt_succ hj2⟩
                  exact hlater j2' _ (by omega)
      · rw [if_neg hd]
        have hdm : d ≤ m := JSNum.le_of_not_lt hd
        obtain ⟨⟨hmin, hminAll⟩, hchar⟩ := ih (i + 1) i d
        refine ⟨⟨JSNum.le_trans hmin hdm, ?_⟩, ?_⟩
        · intro j hj
          cases j with
          | zero => exact hmin
          | succ j' =>
              show _ ≤ rest.get ⟨j', Nat.lt_of_succ_lt_succ hj⟩
              exact hminAll j' _
        · rcases hchar with ⟨hk, hm, hall⟩ | ⟨j, hj, hk, hm, hlater⟩
          · right
            refine ⟨0, by simp, by omega, hm, ?_⟩
            intro j2 hj2 hgt
            cases j2 with
            | zero => omega
            | succ j2' =>
                show _ < rest.get ⟨j2', Nat.lt_of_succ_lt_succ hj2⟩
                rw [hm]
                exact hall j2' _
          · right
            refine ⟨j + 1, Nat.succ_lt_succ hj, ?_, ?_, ?_⟩
            · rw [hk]; omega
            · exact hm
            · intro j2 hj2 hgt
              cases j2 with
              | zero => omega
              | succ j2' =>
                  show _ < rest.get ⟨j2', Nat.lt_of_succ_lt_succ hj2⟩
                  exact hlater j2' _ (by omega)



theorem nciRGBGo_eq_scanGo (r g b : JSNum) :
    ∀ (pal : List (List ℤ)) (i k : ℕ) (m : JSNum),
      nciRGBGo r g b pal i k m = (scanGo (pal.map (distRGBJS r g b)) i k m).1 := by
  intro pal
  induction pal with
  | nil => intro i k m; rfl
  | cons px rest ih =>
      intro i k m
      simp only [nciRGBGo, List.map_cons, scanGo]
      have h12 : sqr ((px.getD 0 0 : ℤ) - r) ≤
          sqr ((px.getD 0 0 : ℤ) - r) + sqr ((px.getD 1 0 : ℤ) - g) :=
        JSNum.le_add_sqr _ _
      have h123 : sqr ((px.getD 0 0 : ℤ) - r) + sqr ((px.getD 1 0 : ℤ) - g) ≤
          distRGBJS r g b px :=
        JSNum.le_add_sqr _ _
      by_cases h1 : sqr ((px.getD 0 0 : ℤ) - r) > m
      · rw [if_pos h1, if_pos (JSNum.lt_of_lt_of_le h1 (JSNum.le_trans h12 h123))]
        exact ih (i + 1) k m
      · rw [if_neg h1]
        by_cases h2 : sqr ((px.getD 0 0 : ℤ) - r) + sqr ((px.getD 1 0 : ℤ) - g) > m
        · rw [if_pos h2, if_pos (JSNum.lt_of_lt_of_le h2 h123)]
          exact ih (i + 1) k m
        · rw [if_neg h2]
          by_cases h3 : distRGBJS r g b px > m
          · rw [show sqr ((px.getD 0 0 : ℤ) - r) + sqr ((px.getD 1 0 : ℤ) - g) +
                sqr ((px.getD 2 0 : ℤ) - b) = distRGBJS r g b px from rfl,
              if_pos h3, if_pos h3]
            exact ih (i + 1) k m
          · rw [show sqr ((px.getD 0 0 : ℤ) - r) + sqr ((px.getD 1 0 : ℤ) - g) +
                sqr ((px.getD 2 0 : ℤ) - b) = distRGBJS r g b px from rfl,
              if_neg h3, if_neg h3]
            exact ih (i + 1) i _

theorem nciRGBAGo_eq_scanGo (r g b a : JSNum) :
    ∀ (pal : List (List ℤ)) (i k : ℕ) (m : JSNum),
      nciRGBAGo r g b a pal i k m = (scanGo (pal.map (distRGBAJS r g b a)) i k m).1 := by
  intro pal
  induction pal with
  | nil => intro i k m; rfl
  | cons px rest ih =>
      intro i k m
      simp only [nciRGBAGo, List.map_cons, scanGo]
      have h12 : sqr ((px.getD 3 0 : ℤ) - a) ≤
          sqr ((px.getD 3 0 : ℤ) - a) + sqr ((px.getD 0 0 : ℤ) - r) :=
        JSNum.le_add_sqr _ _
      have h123 : sqr ((px.getD 3 0 : ℤ) - a) + sqr ((px.getD 0 0 : ℤ) - r) ≤
          sqr ((px.getD 3 0 : ℤ) - a) + sqr ((px.getD 0 0 : ℤ) - r) +
            sqr ((px.getD 1 0 : ℤ) - g) :=
        JSNum.le_add_sqr _ _
      have h1234 : sqr ((px.getD 3 0 : ℤ) - a) + sqr ((px.getD 0 0 : ℤ) - r) +
          sqr ((px.getD 1 0 : ℤ) - g) ≤ distRGBAJS r g b a px :=
        JSNum.le_add_sqr _ _
      by_cases h1 : sqr ((px.getD 3 0 : ℤ) - a) > m
      · rw [if_pos h1, if_pos (JSNum.lt_of_lt_of_le h1
          (JSNum.le_trans h12 (JSNum.le_trans h123 h1234)))]
        exact ih (i + 1) k m
      · rw [if_neg h1]
        by_cases h2 : sqr ((px.getD 3 0 : ℤ) - a) + sqr ((px.getD 0 0 : ℤ) - r) > m
        · rw [if_pos h2, if_pos (JSNum.lt_of_lt_of_le h2 (JSNum.le_trans h123 h1234))]
          exact ih (i + 1) k m
        · rw [if_neg h2]
          by_cases h3 : sqr ((px.getD 3 0 : ℤ) - a) + sqr ((px.getD 0 0 : ℤ) - r) +
              sqr ((px.getD 1 0 : ℤ) - g) > m
          · rw [if_pos h3, if_pos (JSNum.lt_of_lt_of_le h3 h1234)]
            exact ih (i + 1) k m
          · rw [if_neg h3]
            by_cases h4 : distRGBAJS r g b a px > m
            · rw [show sqr ((px.getD 3 0 : ℤ) - a) + sqr ((px.getD 0 0 : ℤ) - r) +
                  sqr ((px.getD 1 0 : ℤ) - g) + sqr ((px.getD 2 0 : ℤ) - b) =
                  distRGBAJS r g b a px from rfl, if_pos h4, if_pos h4]
              exact ih (i + 1) k m
            · rw [show sqr ((px.getD 3 0 : ℤ) - a) + sqr ((px.getD 0 0 : ℤ) - r) +
                  sqr ((px.getD 1 0 : ℤ) - g) + sqr ((px.getD 2 0 : ℤ) - b) =
                  distRGBAJS r g b a px from rfl, if_neg h4, if_neg h4]
              exact ih (i + 1) i _



theorem distRGBJS_toRat (r g b : ℕ) (p : List ℤ) :
    (distRGBJS ((r : ℕ) : JSNum) ((g : ℕ) : JSNum) ((b : ℕ) : JSNum) p).toRat =
      distRGBQ r g b p := by
  unfold distRGBJS distRGBQ sqr
  rw [toRat_add, toRat_add, toRat_mul, toRat_mul, toRat_mul,
    toRat_sub, toRat_sub, toRat_sub, toRat_intCast, toRat_intCast, toRat_intCast,
    toRat_natCast, toRat_natCast, toRat_natCast]

theorem distRGBAJS_toRat (r g b a : ℕ) (p : List ℤ) :
    (distRGBAJS ((r : ℕ) : JSNum) ((g : ℕ) : JSNum) ((b : ℕ) : JSNum)
      ((a : ℕ) : JSNum) p).toRat = distRGBAQ r g b a p := by
  unfold distRGBAJS distRGBAQ sqr
  rw [toRat_add, toRat_add, toRat_add, toRat_mul, toRat_mul, toRat_mul, toRat_mul,
    toRat_sub, toRat_sub, toRat_sub, toRat_sub, toRat_intCast, toRat_intCast,
    toRat_intCast, toRat_intCast, toRat_natCast, toRat_natCast, toRat_natCast,
    toRat_natCast]

theorem list_get_map {α β : Type} (f : α → β) :
    ∀ (l : List α) (j : ℕ) (hj : j < l.length) (hj2 : j < (l.map f).length),
      (l.map f).get ⟨j, hj2⟩ = f (l.get ⟨j, hj⟩)
  | _ :: _, 0, _, _ => rfl
  | _ :: rest, j + 1, hj, hj2 =>
      list_get_map f rest j (Nat.lt_of_succ_lt_succ hj) (Nat.lt_of_succ_lt_succ hj2)

theorem list_getD_eq_get {α : Type} (d : α) :
    ∀ (l : List α) (j : ℕ) (hj : j < l.length), l.getD j d = l.get ⟨j, hj⟩
  | _ :: _, 0, _ => rfl
  | _ :: rest, j + 1, hj => list_getD_eq_get d rest j (Nat.lt_of_succ_lt_succ hj)

theorem channel_bound {p : List ℤ} (hp : ∀ x ∈ p, 0 ≤ x ∧ x ≤ 255) (j : ℕ) :
    0 ≤ p.getD j 0 ∧ p.getD j 0 ≤ 255 := by
  by_cases hj : j < p.length
  · rw [list_getD_eq_get 0 p j hj]
    exact hp _ (List.get_mem p j hj)
  · rw [List.getD_eq_default]
    · norm_num
    · omega

theorem distRGBQ_bound (r g b : ℕ) (p : List ℤ) (hr : r < 256) (hg : g < 256)
    (hb : b < 256) (hp : ∀ x ∈ p, 0 ≤ x ∧ x ≤ 255) :
    distRGBQ r g b p < 10 ^ 100 := by
  unfold distRGBQ
  obtain ⟨h0a, h0b⟩ := channel_bound hp 0
  obtain ⟨h1a, h1b⟩ := channel_bound hp 1
  obtain ⟨h2a, h2b⟩ := channel_bound hp 2
  have hrq : (r : ℚ) ≤ 255 := by exact_mod_cast Nat.le_of_lt_succ hr
  have hgq : (g : ℚ) ≤ 255 := by exact_mod_cast Nat.le_of_lt_succ hg
  have hbq : (b : ℚ) ≤ 255 := by exact_mod_cast Nat.le_of_lt_succ hb
  have hr0 : (0 : ℚ) ≤ r := by positivity
  have hg0 : (0 : ℚ) ≤ g := by positivity
  have hb0 : (0 : ℚ) ≤ b := by positivity
  have h0aq : (0 : ℚ) ≤ (p.getD 0 0 : ℚ) := by exact_mod_cast h0a
  have h0bq : ((p.getD 0 0 : ℤ) : ℚ) ≤ 255 := by exact_mod_cast h0b
  have h1aq : (0 : ℚ) ≤ (p.getD 1 0 : ℚ) := by exact_mod_cast h1a
  have h1bq : ((p.getD 1 0 : ℤ) : ℚ) ≤ 255 := by exact_mod_cast h1b
  have h2aq : (0 : ℚ) ≤ (p.getD 2 0 : ℚ) := by exact_mod_cast h2a
  have h2bq : ((p.getD 2 0 : ℤ) : ℚ) ≤ 255 := by exact_mod_cast h2b
  nlinarith

theorem distRGBAQ_bound (r g b a : ℕ) (p : List ℤ) (hr : r < 256) (hg : g < 256)
    (hb : b < 256) (ha : a < 256) (hp : ∀ x ∈ p, 0 ≤ x ∧ x ≤ 255) :
    distRGBAQ r g b a p < 10 ^ 100 := by
  unfold distRGBAQ
  obtain ⟨h0a, h0b⟩ := channel_bound hp 0
  obtain ⟨h1a, h1b⟩ := channel_bound hp 1
  obtain ⟨h2a, h2b⟩ := channel_bound hp 2
  obtain ⟨h3a, h3b⟩ := channel_bound hp 3
  have hrq : (r : ℚ) ≤ 255 := by exact_mod_cast Nat.le_of_lt_succ hr
  have hgq : (g : ℚ) ≤ 255 := by exact_mod_cast Nat.le_of_lt_succ hg
  have hbq : (b : ℚ) ≤ 255 := by exact_mod_cast Nat.le_of_lt_succ hb
  have haq : (a : ℚ) ≤ 255 := by exact_mod_cast Nat.le_of_lt_succ ha
  have hr0 : (0 : ℚ) ≤ r := by positivity
  have hg0 : (0 : ℚ) ≤ g := by positivity
  have hb0 : (0 : ℚ) ≤ b := by positivity
  have ha0 : (0 : ℚ) ≤ a := by positivity
  have h0aq : (0 : ℚ) ≤ (p.getD 0 0 : ℚ) := by exact_mod_cast h0a
  have h0bq : ((p.getD 0 0 : ℤ) : ℚ) ≤ 255 := by exact_mod_cast h0b
  have h1aq : (0 : ℚ) ≤ (p.getD 1 0 : ℚ) := by exact_mod_cast h1a
  have h1bq : ((p.getD 1 0 : ℤ) : ℚ) ≤ 255 := by exact_mod_cast h1b
  have h2aq : (0 : ℚ) ≤ (p.getD 2 0 : ℚ) := by exact_mod_cast h2a
  have h2bq : ((p.getD 2 0 : ℤ) : ℚ) ≤ 255 := by exact_mod_cast h2b
  have h3aq : (0 : ℚ) ≤ (p.getD 3 0 : ℚ) := by exact_mod_cast h3a
  have h3bq : ((p.getD 3 0 : ℤ) : ℚ) ≤ 255 := by exact_mod_cast h3b
  nlinarith

theorem scan_argmin_general (dJS : List ℤ → JSNum) (dQ : List ℤ → ℚ)
    (hd : ∀ p, (dJS p).toRat = dQ p) (palette : List (List ℤ))
    (hbound : ∀ p ∈ palette, dQ p < 10 ^ 100) (hne : palette ≠ []) :
    (scanGo (palette.map dJS) 0 0 jsBig).1 < palette.length ∧
    (∀ j, j < palette.length →
      dQ (palette.getD ((scanGo (palette.map dJS) 0 0 jsBig).1) []) ≤
        dQ (palette.getD j [])) ∧
    (∀ j, j < palette.length →
      dQ (palette.getD j []) =
        dQ (palette.getD ((scanGo (palette.map dJS) 0 0 jsBig).1) []) →
      j ≤ (scanGo (palette.map dJS) 0 0 jsBig).1) := by
  have hdl : (palette.map dJS).length = palette.length := List.length_map _ _
  have h0 : 0 < palette.length := List.length_pos.mpr hne
  obtain ⟨⟨hmin, hminAll⟩, hchar⟩ := scanGo_spec (palette.map dJS) 0 0 jsBig
  rcases hchar with ⟨_, hm0, hall⟩ | ⟨j0, hj0, hk1, hm1, hlater⟩
  · exfalso
    have h0' : 0 < (palette.map dJS).length := by omega
    have hgt := hall 0 h0'
    rw [list_get_map dJS palette 0 h0 h0'] at hgt
    rw [toRat_lt, toRat_jsBig, hd] at hgt
    have hbd := hbound (palette.get ⟨0, h0⟩) (List.get_mem palette 0 h0)
    linarith
  · have hj0p : j0 < palette.length := by omega
    have hkval : (scanGo (palette.map dJS) 0 0 jsBig).1 = j0 := by rw [hk1]; omega
    have hkD : palette.getD ((scanGo (palette.map dJS) 0 0 jsBig).1) [] =
        palette.get ⟨j0, hj0p⟩ := by
      rw [hkval]
      exact list_getD_eq_get [] palette j0 hj0p
    have hsndQ : (scanGo (palette.map dJS) 0 0 jsBig).2.toRat =
        dQ (palette.get ⟨j0, hj0p⟩) := by
      rw [hm1, list_get_map dJS palette j0 hj0p hj0, hd]
    refine ⟨by omega, ?_, ?_⟩
    · intro j hj
      have hj' : j < (palette.map dJS).length := by omega
      have hmj := hminAll j hj'
      rw [toRat_le, hsndQ, list_get_map dJS palette j hj hj', hd] at hmj
      rw [hkD, list_getD_eq_get [] palette j hj]
      exact hmj
    · intro j hj heq
      by_contra hgt
      push_neg at hgt
      have hj' : j < (palette.map dJS).length := by omega
      have hlt := hlater j hj' (by omega)
      rw [toRat_lt, hsndQ, list_get_map dJS palette j hj hj', hd] at hlt
      rw [hkD, list_getD_eq_get [] palette j hj] at heq
      linarith

/-- C3 (amended): in the nearest-index scans of `applyPalette`, when several
palette entries attain the minimal squared distance, the index returned (and
cached) is the **last** (largest) such palette index, not the earlier one: the
update guard `curdist > mindist` is strict, so an exact tie replaces the
current best. -/
theorem nearest_index_ties_resolve_to_last
    (r g b a : ℕ) (palette : List (List ℤ))
    (hr : r < 256) (hg : g < 256) (hb : b < 256) (ha : a < 256)
    (hpal : ∀ c ∈ palette, ∀ x ∈ c, 0 ≤ x ∧ x ≤ 255) (hne : palette ≠ []) :
    (nearestColorIndexRGB r g b palette < palette.length ∧
      (∀ j, j < palette.length →
        distRGBQ r g b (palette.getD (nearestColorIndexRGB r g b palette) []) ≤
          distRGBQ r g b (palette.getD j [])) ∧
      (∀ j, j < palette.length →
        distRGBQ r g b (palette.getD j []) =
          distRGBQ r g b (palette.getD (nearestColorIndexRGB r g b palette) []) →
        j ≤ nearestColorIndexRGB r g b palette)) ∧
    (nearestColorIndexRGBA r g b a palette < palette.length ∧
      (∀ j, j < palette.length →
        distRGBAQ r g b a (palette.getD (nearestColorIndexRGBA r g b a palette) []) ≤
          distRGBAQ r g b a (palette.getD j [])) ∧
      (∀ j, j < palette.length →
        distRGBAQ r g b a (palette.getD j []) =
          distRGBAQ r g b a (palette.getD (nearestColorIndexRGBA r g b a palette) []) →
        j ≤ nearestColorIndexRGBA r g b a palette)) := by
  constructor
  · have hcollapse : nearestColorIndexRGB r g b palette =
        (scanGo (palette.map (distRGBJS ((r : ℕ) : JSNum) ((g : ℕ) : JSNum)
          ((b : ℕ) : JSNum))) 0 0 jsBig).1 :=
      nciRGBGo_eq_scanGo _ _ _ palette 0 0 jsBig
    rw [hcollapse]
    exact scan_argmin_general _ (distRGBQ r g b) (distRGBJS_toRat r g b) palette
      (fun p hp => distRGBQ_bound r g b p hr hg hb (hpal p hp)) hne
  · have hcollapse : nearestColorIndexRGBA r g b a palette =
        (scanGo (palette.map (distRGBAJS ((r : ℕ) : JSNum) ((g : ℕ) : JSNum)
          ((b : ℕ) : JSNum) ((a : ℕ) : JSNum))) 0 0 jsBig).1 :=
      nciRGBAGo_eq_scanGo _ _ _ _ palette 0 0 jsBig
    rw [hcollapse]
    exact scan_argmin_general _ (distRGBAQ r g b a) (distRGBAJS_toRat r g b a) palette
      (fun p hp => distRGBAQ_bound r g b a p hr hg hb ha (hpal p hp)) hne

theorem nearest_index_ties_resolve_to_last_witness :
    nearestColorIndexRGB 0 0 0 [[0, 0, 0], [1, 1, 1]] <
      ([[0, 0, 0], [1, 1, 1]] : List (List ℤ)).length :=
  ((nearest_index_ties_resolve_to_last 0 0 0 0 [[0, 0, 0], [1, 1, 1]]
    (by decide) (by decide) (by decide) (by decide)
    (by intro c hc x hx; fin_cases hc <;> fin_cases hx <;> norm_num)
    (List.cons_ne_nil _ _)).1).1

theorem list_getD_set_self {α : Type} :
    ∀ (l : List α) (i : ℕ) (v d : α),
      (l.set i v).getD i d = if i < l.length then v else d
  | [], _, _, _ => by simp
  | _ :: _, 0, _, _ => by simp
  | a :: rest, i + 1, v, d => by
      show (rest.set i v).getD i d = if i + 1 < rest.length + 1 then v else d
      simp only [Nat.add_lt_add_iff_right]
      exact list_getD_set_self rest i v d

theorem list_getD_set_ne {α : Type} :
    ∀ (l : List α) (i j : ℕ) (v d : α), i ≠ j →
      (l.set i v).getD j d = l.getD j d
  | [], _, _, _, _, _ => by simp
  | _ :: _, 0, 0, _, _, hne => absurd rfl hne
  | _ :: _, 0, _ + 1, _, _, _ => rfl
  | _ :: _, _ + 1, 0, _, _, _ => rfl
  | a :: rest, i + 1, j + 1, v, d, hne => by
      show (rest.set i v).getD j d = rest.getD j d
      exact list_getD_set_ne rest i j v d (by omega)

theorem find_nn_length (fuel : ℕ) (bins : List Bin) (idx : ℕ) (hA : Bool) :
    (find_nn fuel bins idx hA).length = bins.length := by
  simp [find_nn]

theorem find_nn_fw (fuel : ℕ) (bins : List Bin) (idx : ℕ) (hA : Bool) (j : ℕ) :
    ((find_nn fuel bins idx hA).getD j create_bin).fw =
      ((bins.getD j create_bin)).fw := by
  unfold find_nn
  by_cases hij : idx = j
  · subst hij
    rw [list_getD_set_self]
    split
    · rfl
    · rw [List.getD_eq_default]
      omega
  · rw [list_getD_set_ne _ _ _ _ _ hij]

theorem nnPhase_preserves (nnf : List Bin → ℕ → List Bin)
    (hlen : ∀ bins i, (nnf bins i).length = bins.length)
    (hfw : ∀ bins i j, ((nnf bins i).getD j create_bin).fw =
      (bins.getD j create_bin).fw) :
    ∀ (idxs : List ℕ) (bins : List Bin) (heap : List ℕ),
      (nnPhase nnf idxs bins heap).1.length = bins.length ∧
      ∀ j, ((nnPhase nnf idxs bins heap).1.getD j create_bin).fw =
        (bins.getD j create_bin).fw := by
  intro idxs
  induction idxs with
  | nil => intro bins heap; exact ⟨rfl, fun _ => rfl⟩
  | cons i rest ih =>
      intro bins heap
      rw [nnPhase]
      obtain ⟨ihl, ihf⟩ := ih (nnf bins i) (heapPush (nnf bins i) heap i)
      refine ⟨?_, ?_⟩
      · rw [ihl, hlen]
      · intro j
        rw [ihf j, hfw]

theorem mapIdxBGo_length (f : ℕ → Bin → Bin) :
    ∀ (l : List Bin) (i : ℕ), (mapIdxBGo f i l).length = l.length
  | [], _ => rfl
  | _ :: rest, i => by
      simp only [mapIdxBGo, List.length_cons]
      rw [mapIdxBGo_length f rest (i + 1)]

theorem mapIdxBGo_getD (f : ℕ → Bin → Bin) :
    ∀ (l : List Bin) (i j : ℕ), j < l.length →
      (mapIdxBGo f i l).getD j create_bin = f (i + j) (l.getD j create_bin)
  | [], _, j, hj => by simp at hj
  | b :: rest, i, 0, _ => by simp [mapIdxBGo]
  | b :: rest, i, j + 1, hj => by
      show (mapIdxBGo f (i + 1) rest).getD j create_bin = _
      rw [mapIdxBGo_getD f rest (i + 1) j (by simpa using Nat.lt_of_succ_lt_succ hj)]
      congr 1
      omega

theorem linkBins_length (u : Bool) (ms : JSNum → JSNum) (maxbins : ℕ)
    (bins : List Bin) : (linkBins u ms maxbins bins).length = bins.length :=
  mapIdxBGo_length _ bins 0

theorem linkBins_fw (u : Bool) (ms : JSNum → JSNum) (maxbins : ℕ)
    (bins : List Bin) (j : ℕ) (hj : j < bins.length) :
    ((linkBins u ms maxbins bins).getD j create_bin).fw =
      if j + 1 = maxbins then 0 else j + 1 := by
  unfold linkBins
  rw [mapIdxBGo_getD _ bins 0 j hj]
  simp

theorem fillGo_chain_bound (hasAlpha : Bool) (opts : QuantizeOptions)
    (bins : List Bin) (maxbins : ℕ)
    (hfw : ∀ j, j < maxbins → ((bins.getD j create_bin).fw =
      if j + 1 = maxbins then 0 else j + 1)) :
    ∀ (n i : ℕ) (acc : List (List ℤ)) (fuel : ℕ), i < maxbins → n = maxbins - i →
      n ≤ fuel → (fillGo hasAlpha opts bins fuel i acc).length ≤ acc.length + n := by
  intro n
  induction n with
  | zero => intro i acc fuel hi hn _; omega
  | succ n' ih =>
      intro i acc fuel hi hn hfuel
      match fuel, hfuel with
      | fuel' + 1, _ =>
        have hacc : ∀ c : List ℤ,
            (if existsInPalette acc c then acc else acc ++ [c]).length ≤
              acc.length + 1 := by
          intro c
          split
          · omega
          · simp
        simp only [fillGo]
        rw [hfw i hi]
        by_cases hend : i + 1 = maxbins
        · rw [if_pos hend, if_pos rfl]
          exact le_trans (hacc _) (by omega)
        · rw [if_neg hend, if_neg (by omega : ¬ (i + 1 = 0))]
          refine le_trans (ih (i + 1) _ fuel' (by omega) (by omega) (by omega)) ?_
          exact le_trans (Nat.add_le_add_right (hacc _) n') (by omega)

/-- C7 counterexample: a two-pixel rgba4444 input with two nonempty bins
(`maxbins = 2`) and `maxColors = 256 > maxbins`: both fully transparent bins
are cleared to `[0,0,0,0]` by the default `clearAlpha`, the duplicate is
dropped by `existsInPalette`, and the palette has 1 entry, not `maxbins`. -/
theorem quantize_dedup_counterexample :
    quantize id [10, 20, 30, 0, 50, 60, 70, 0] 256 { format := "rgba4444" } =
      .ok [[0, 0, 0, 0]] ∧
    (create_bin_list (bytesToU32 [10, 20, 30, 0, 50, 60, 70, 0])
      "rgba4444").length = 2 := by
  exact ⟨by decide, by decide⟩

/-- C7 (amended): when the number of nonempty histogram bins `maxbins` is
positive and smaller than `maxColors`, the merge loop runs zero times and the
fill walk visits each of the `maxbins` linked bins exactly once, so the
returned palette has at most `maxbins` entries (exactly `maxbins` unless the
post-processing — alpha clearing, one-bit alpha, or rounding — makes two bins
produce the same color, which `existsInPalette` de-duplicates). -/
theorem quantize_palette_at_most_maxbins
    (msqrt : JSNum → JSNum) (rgba : List ℕ) (maxColors : ℕ)
    (opts : QuantizeOptions) (out : List (List ℤ))
    (hlen : rgba.length % 4 = 0)
    (hmb : 0 < (create_bin_list (bytesToU32 rgba) opts.format).length)
    (hlt : (create_bin_list (bytesToU32 rgba) opts.format).length < maxColors)
    (hok : quantize msqrt rgba maxColors opts = .ok out) :
    out.length ≤ (create_bin_list (bytesToU32 rgba) opts.format).length := by
  unfold create_bin_list at hmb hlt ⊢
  unfold quantize quantizeT quantizeCore at hok
  rw [if_neg (by omega : ¬ rgba.length % 4 ≠ 0)] at hok
  dsimp only at hok
  rw [if_neg (by omega :
    ¬ (create_bin_listT (bytesToU32 rgba) opts.format).1.length = 0)] at hok
  rw [show ((((create_bin_listT (bytesToU32 rgba) opts.format).1.length : ℤ)) -
      (maxColors : ℤ)).toNat = 0 from by omega] at hok
  rw [show ∀ (nnf : List Bin → ℕ → List Bin) (hA : Bool) (bc1 : ℕ)
      (bins : List Bin) (heap : List ℕ) (iCur : ℕ),
      mergePhase nnf hA bc1 0 iCur bins heap = bins from fun _ _ _ _ _ _ => rfl] at hok
  simp only [Except.ok.injEq] at hok
  rw [← hok]
  have hmaps : ((create_bin_listT (bytesToU32 rgba) opts.format).1.map
      (fun kb => normalizeBin (opts.format = "rgba4444") kb.2)).length =
      (create_bin_listT (bytesToU32 rgba) opts.format).1.length :=
    List.length_map _ _
  have hnnf_len : ∀ (bins : List Bin) (i : ℕ),
      (find_nn (bins.length + 1) bins i false).length = bins.length :=
    fun bins i => find_nn_length _ bins i false
  have hnnf_fw : ∀ (bins : List Bin) (i j : ℕ),
      ((find_nn (bins.length + 1) bins i false).getD j create_bin).fw =
        (bins.getD j create_bin).fw :=
    fun bins i j => find_nn_fw _ bins i false j
  have hfw : ∀ j, j < (create_bin_listT (bytesToU32 rgba) opts.format).1.length →
      ((nnPhase (fun bins b1 => find_nn (bins.length + 1) bins b1 false)
        (List.range (create_bin_listT (bytesToU32 rgba) opts.format).1.length)
        (linkBins (if sqr ((maxColors : ℕ) : JSNum) /
            (((create_bin_listT (bytesToU32 rgba) opts.format).1.length : ℕ) : JSNum) <
            js0022 then false else opts.useSqrt ≠ some false) msqrt
          (create_bin_listT (bytesToU32 rgba) opts.format).1.length
          ((create_bin_listT (bytesToU32 rgba) opts.format).1.map
            (fun kb => normalizeBin (opts.format = "rgba4444") kb.2)))
        (List.replicate ((create_bin_listT (bytesToU32 rgba) opts.format).1.length + 1)
          0)).1.getD j create_bin).fw =
      if j + 1 = (create_bin_listT (bytesToU32 rgba) opts.format).1.length then 0
      else j + 1 := by
    intro j hj
    rw [(nnPhase_preserves _ hnnf_len hnnf_fw _ _ _).2 j]
    rw [linkBins_fw]
    omega
  exact le_trans (fillGo_chain_bound _ opts _ _ hfw _ 0 [] _ hmb (by omega)
    (le_refl _)) (by simp)

theorem quantize_palette_at_most_maxbins_witness :
    (([[10, 20, 30]] : List (List ℤ)).length ≤
      (create_bin_list (bytesToU32 [10, 20, 30, 255]) "rgb565").length) :=
  quantize_palette_at_most_maxbins id [10, 20, 30, 255] 2 {} [[10, 20, 30]]
    (by decide) (by decide) (by decide) (by decide)

/-- C8 (amended): for byte-array inputs, `applyPalette` throws exactly when
the palette has more than 256 entries or the byte length is not a multiple of
4; in every error case no index array is produced. -/
theorem applyPalette_error_iff (rgba : List ℕ) (palette : List (List ℤ))
    (format : String) :
    (∃ e, applyPalette rgba palette format = .error e) ↔
      256 < palette.length ∨ rgba.length % 4 ≠ 0 := by
  unfold applyPalette applyPaletteT
  by_cases h1 : palette.length > 256
  · simp [h1]
  · by_cases h2 : rgba.length % 4 ≠ 0 <;> simp [h1, h2]

end Gifenc
